import Mathlib

/-!
Result ownership and streaming iteration (`include/mysqlx/result.h`).

A shallow embedding of the generic sequence iterator `internal::iterator`,
of `internal::List_initializer`, of the ownership transfer
`internal::BaseResult::init`, of the warning iterator that `BaseResult`
implements on itself and of the row iterator that `RowResult` implements on
itself, followed by the properties proved about them.

Conventions.

* A C++ object that is mutated is a value that is passed in and returned.
* `Impl *m_impl` of the iterator is `Option Unit`: `none` is `NULL`, and
  `some ()` is the address of the one driver object of the scenario, whose
  state is passed to every operation explicitly.
* An exception is an `Except.error`; the state that is returned with it is the
  state at the `throw`.
* `unsigned` arithmetic is arithmetic on `Nat` modulo `2 ^ 32`.
-/

namespace mysqlx

namespace internal

/-- The three methods `internal::iterator` assumes of its implementation
object `Impl`, as functions on the state `σ` of that object:
`void iterator_start()`, `bool iterator_next()` and
`Value_type iterator_get()`. A failure of `iterator_get` is a value of `ε`. -/
structure Driver (σ ε α : Type) where
  iterator_start : σ → σ
  iterator_next : σ → Bool × σ
  iterator_get : σ → Except ε α × σ

/-- What `operator*` can throw: its own
`THROW("Attempt to dereference null iterator")`, or whatever the call of
`m_impl->iterator_get()` throws. -/
inductive DerefError (ε : Type) where
  | null_iterator : DerefError ε
  | impl : ε → DerefError ε
  deriving DecidableEq, Repr

/-- The data members of `struct iterator`: `Impl *m_impl = NULL` and
`bool m_at_end = false`. -/
structure iterator where
  m_impl : Option Unit := none
  m_at_end : Bool := false
  deriving DecidableEq, Repr

namespace iterator

variable {σ ε α : Type}

/-- The constructor `iterator(Impl& impl)`: `m_impl(&impl)`, then
`m_impl->iterator_start(); m_at_end = !m_impl->iterator_next();`. -/
def ofImpl (d : Driver σ ε α) (impl : σ) : iterator × σ :=
  let s₁ := d.iterator_start impl
  let r := d.iterator_next s₁
  ({ m_impl := some (), m_at_end := !r.1 }, r.2)

/-- The default constructor `iterator() : m_at_end(true)`; `m_impl` keeps its
initialiser `NULL`. -/
def default_ctor : iterator :=
  { m_impl := none, m_at_end := true }

/-- The member `operator!=`: `return !(m_at_end && other.m_at_end);`. -/
def ne (a other : iterator) : Bool :=
  !(a.m_at_end && other.m_at_end)

/-- The member `operator++`:
`if (m_impl && !m_at_end) m_at_end = !m_impl->iterator_next(); return *this;`. -/
def incr (d : Driver σ ε α) (it : iterator) (impl : σ) : iterator × σ :=
  if it.m_impl.isSome && !it.m_at_end then
    let r := d.iterator_next impl
    ({ it with m_at_end := !r.1 }, r.2)
  else
    (it, impl)

/-- The member `operator*`:
`if (!m_impl || m_at_end) THROW(...); return m_impl->iterator_get();`.
The method is `const`, so only the state of the driver is returned. -/
def deref (d : Driver σ ε α) (it : iterator) (impl : σ) :
    Except (DerefError ε) α × σ :=
  if !it.m_impl.isSome || it.m_at_end then
    (.error .null_iterator, impl)
  else
    match d.iterator_get impl with
    | (.ok v, s) => (.ok v, s)
    | (.error e, s) => (.error (.impl e), s)

/-- The iterator and the driver after `n` times `++it`. -/
def incr_n (d : Driver σ ε α) : Nat → iterator × σ → iterator × σ
  | 0, p => p
  | n + 1, p => incr_n d n (incr d p.1 p.2)

end iterator

/-- The loop a standard container runs in its constructor from a pair of
input iterators, `for (; first != last; ++first) push_back(*first);`, and the
loop of a range-based `for`. The container is the list `acc` of the elements
stored so far. `fuel` bounds the number of tests of `first != last`; `none`
means the bound was reached. An exception thrown by `*first` ends the loop. -/
def range_loop {σ ε α : Type} (d : Driver σ ε α) :
    Nat → iterator → iterator → σ → List α → Option (Except (DerefError ε) (List α) × σ)
  | 0, _, _, _, _ => none
  | fuel + 1, first, last, impl, acc =>
    if first.ne last then
      match first.deref d impl with
      | (.error e, s) => some (.error e, s)
      | (.ok v, s) =>
        let r := first.incr d s
        range_loop d fuel r.1 last r.2 (acc ++ [v])
    else
      some (.ok acc, impl)

namespace List_initializer

variable {σ ε α : Type}

/-- The member `iterator begin() { return std::begin(m_src); }`, where
`std::begin(m_src)` is `m_src.begin()`, which every source in the file
defines as `return iterator(*this);`. -/
def begin (d : Driver σ ε α) (m_src : σ) : iterator × σ :=
  iterator.ofImpl d m_src

/-- The member `iterator end() const { return std::end(m_src); }`, where
`m_src.end()` is `return iterator();` in every source of the file. -/
def end_ : iterator :=
  iterator.default_ctor

/-- The conversion `operator U() { return U(std::begin(m_src), std::end(m_src)); }`
for a sequence container `U`. -/
def toContainer (d : Driver σ ε α) (fuel : Nat) (m_src : σ) :
    Option (Except (DerefError ε) (List α) × σ) :=
  let b := begin d m_src
  range_loop d fuel b.1 end_ b.2 []

end List_initializer

end internal

/-! ## Warnings -/

/-- The enumeration `Warning::Level`. -/
inductive Warning.Level where
  | ERROR | WARNING | INFO
  deriving DecidableEq, Repr

/-- The data members of `class Warning`; `m_code` is a `uint16_t`. -/
structure Warning where
  m_level : Warning.Level
  m_code : Nat
  m_msg : String
  deriving DecidableEq, Repr

/-- The failure of an index that is not below the count. -/
inductive Error where
  | out_of_range
  deriving DecidableEq, Repr

namespace internal

/-- The data members of `class BaseResult`. `m_impl` is `NULL` (`none`) or the
address of an `Impl`, the object that wraps one reply. `m_wpos` and
`m_at_begin` have no initialiser in the class. -/
structure BaseResult where
  m_impl : Option Nat
  m_owns_impl : Bool
  m_pos : Nat
  m_wpos : Nat
  m_at_begin : Bool
  deriving DecidableEq, Repr

namespace BaseResult

/-- The state of a handle after the protected constructor `BaseResult() {}`:
the member initialisers `m_impl = NULL`, `m_owns_impl = false`, `m_pos = 0`;
`wpos` and `at_begin` are whatever the storage held for the two members
without an initialiser. -/
def default_ctor (wpos : Nat) (at_begin : Bool) : BaseResult :=
  { m_impl := none, m_owns_impl := false, m_pos := 0, m_wpos := wpos, m_at_begin := at_begin }

/-- The method `void BaseResult::init(BaseResult &&init_)`, statement by
statement, on a memory of handles: `self` is the address of `*this` and
`init_` the address of the argument (the two may be the same address). -/
def init (mem : Nat → BaseResult) (self init_ : Nat) : Nat → BaseResult :=
  let mem₁ := Function.update mem self { mem self with m_pos := 0 }
  let mem₂ := Function.update mem₁ self { mem₁ self with m_impl := (mem₁ init_).m_impl }
  if !(mem₂ init_).m_owns_impl then
    Function.update mem₂ self { mem₂ self with m_owns_impl := false }
  else
    let mem₃ := Function.update mem₂ self { mem₂ self with m_owns_impl := true }
    Function.update mem₃ init_ { mem₃ init_ with m_owns_impl := false }

/-- The move assignment `BaseResult& operator=(BaseResult &&other)`, and
`Result::operator=`: both are `init(std::move(other)); return *this;`. -/
def move_assign (mem : Nat → BaseResult) (self other : Nat) : Nat → BaseResult :=
  init mem self other

/-- The move constructor `BaseResult(BaseResult &&other) { init(std::move(other)); }`
(`Result(Result &&other)` is `*this = std::move(other);`, the same): the new
object at `self` gets its member initialisers, then `init` runs. -/
def move_ctor (mem : Nat → BaseResult) (self other : Nat) : Nat → BaseResult :=
  init (Function.update mem self (default_ctor (mem self).m_wpos (mem self).m_at_begin)) self other

/-- Handle `h` owns the `Impl` at address `x`: it points to it and its
`m_owns_impl` is set. -/
def owns (mem : Nat → BaseResult) (h x : Nat) : Prop :=
  (mem h).m_impl = some x ∧ (mem h).m_owns_impl = true

instance (mem : Nat → BaseResult) (h x : Nat) : Decidable (owns mem h x) := by
  unfold owns
  infer_instance

/-- No `Impl` has two owning handles. -/
def at_most_one_owner (mem : Nat → BaseResult) : Prop :=
  ∀ x h₁ h₂, owns mem h₁ x → owns mem h₂ x → h₁ = h₂

/-- Modelled from the spec: `unsigned getWarningCount() const` is declared in
`result.h` and defined elsewhere. "Returns the number of diagnostics attached
to the underlying reply; 0 if empty." `replies` gives, for the address of an
`Impl`, the warnings of its reply. -/
def getWarningCount (replies : Nat → List Warning) (r : BaseResult) : Nat :=
  match r.m_impl with
  | none => 0
  | some p => (replies p).length

/-- Modelled from the spec: `Warning getWarning(unsigned)` is declared in
`result.h` and defined elsewhere. "Returns the i-th Warning; fails with an
out-of-range condition if `i >= warningCount()`." Warnings are "not consumed
by reading", so the handle is not changed. -/
def getWarning (replies : Nat → List Warning) (r : BaseResult) (pos : Nat) :
    Except Error Warning :=
  match r.m_impl with
  | none => .error .out_of_range
  | some p =>
    match (replies p)[pos]? with
    | some w => .ok w
    | none => .error .out_of_range

/-- The method `void iterator_start() { m_wpos = 0; m_at_begin = true; }`. -/
def iterator_start (r : BaseResult) : BaseResult :=
  { r with m_wpos := 0, m_at_begin := true }

/-- The method `bool iterator_next()`:
`if (!m_at_begin) m_wpos++; m_at_begin = false; return m_wpos < getWarningCount();`
with `m_wpos` an `unsigned`. -/
def iterator_next (replies : Nat → List Warning) (r : BaseResult) : Bool × BaseResult :=
  let r₁ := if !r.m_at_begin then { r with m_wpos := (r.m_wpos + 1) % 2 ^ 32 } else r
  let r₂ := { r₁ with m_at_begin := false }
  (decide (r₂.m_wpos < getWarningCount replies r₂), r₂)

/-- The method `Warning iterator_get() { return getWarning(m_wpos); }`. -/
def iterator_get (replies : Nat → List Warning) (r : BaseResult) :
    Except Error Warning × BaseResult :=
  (getWarning replies r r.m_wpos, r)

/-- The handle as the implementation object of
`typedef internal::iterator<Warning, BaseResult> iterator`. -/
def driver (replies : Nat → List Warning) : Driver BaseResult Error Warning :=
  { iterator_start := iterator_start
    iterator_next := iterator_next replies
    iterator_get := iterator_get replies }

/-- The method `iterator begin() { return iterator(*this); }`. -/
def begin (replies : Nat → List Warning) (r : BaseResult) : iterator × BaseResult :=
  iterator.ofImpl (driver replies) r

/-- The method `iterator end() { return iterator(); }`. -/
def end_ : iterator :=
  iterator.default_ctor

/-- One complete pass over `getWarnings()`, which is
`List_initializer<BaseResult>(*this)`: from `begin()` until the iterator
equals `end()`. -/
def getWarnings (replies : Nat → List Warning) (fuel : Nat) (r : BaseResult) :
    Option (Except (DerefError Error) (List Warning) × BaseResult) :=
  List_initializer.toContainer (driver replies) fuel r

end BaseResult

end internal

/-! ## Rows -/

/-- The data member of `class Row`, `std::shared_ptr<Impl> m_impl`: `none` is
the empty pointer of `Row() {}`. The field values an `Impl` holds are kept as
a list of numbers. -/
structure Row where
  m_impl : Option (List Nat)
  deriving DecidableEq, Repr

namespace Row

/-- The method `bool isNull() const { return NULL == m_impl; }`. -/
def isNull (r : Row) : Bool :=
  r.m_impl.isNone

/-- The constructor `Row() {}`. -/
def default_ctor : Row :=
  { m_impl := none }

end Row

/-- The part of a `RowResult` the row iterator works on. `stream` is all that
`fetchOne()` reads and writes (the `BaseResult` members, the row cache and
the reply behind `m_impl`); `m_cur_row` is the member `Row m_cur_row`. -/
structure RowResult (σ : Type) where
  stream : σ
  m_cur_row : Row

namespace RowResult

variable {σ : Type}

/-- The method `void iterator_start() {}`. -/
def iterator_start (res : RowResult σ) : RowResult σ :=
  res

/-- The method `bool iterator_next()`:
`m_cur_row = fetchOne(); return !m_cur_row.isNull();`. The method `fetchOne()`
is declared in `result.h` and defined elsewhere: it is the parameter
`fetchOne`, from the state of the stream to the row returned and the state
left. -/
def iterator_next (fetchOne : σ → Row × σ) (res : RowResult σ) : Bool × RowResult σ :=
  let r := fetchOne res.stream
  let res₁ : RowResult σ := { stream := r.2, m_cur_row := r.1 }
  (!res₁.m_cur_row.isNull, res₁)

/-- The method `Row iterator_get() { return m_cur_row; }`. -/
def iterator_get (res : RowResult σ) : Except Empty Row × RowResult σ :=
  (.ok res.m_cur_row, res)

/-- The row result as the implementation object of
`typedef internal::iterator<Row, RowResult> iterator`. -/
def driver (fetchOne : σ → Row × σ) : internal.Driver (RowResult σ) Empty Row :=
  { iterator_start := iterator_start
    iterator_next := iterator_next fetchOne
    iterator_get := iterator_get }

/-- The method `iterator begin() { return iterator(*this); }`. -/
def begin (fetchOne : σ → Row × σ) (res : RowResult σ) : internal.iterator × RowResult σ :=
  internal.iterator.ofImpl (driver fetchOne) res

/-- The method `iterator end() const { return iterator(); }`. -/
def end_ : internal.iterator :=
  internal.iterator.default_ctor

/-- The result of `fetchAll()`, `internal::List_initializer<RowResult>(*this)`,
converted to a container. -/
def fetchAll (fetchOne : σ → Row × σ) (fuel : Nat) (res : RowResult σ) :
    Option (Except (internal.DerefError Empty) (List Row) × RowResult σ) :=
  internal.List_initializer.toContainer (driver fetchOne) fuel res

/-- The stream in state `s` has the rows `rows` to give: the next calls of
`fetchOne()` return them one by one, none of them null, and the call after
the last of them returns a null `Row`. -/
def Yields (fetchOne : σ → Row × σ) : σ → List Row → Prop
  | s, [] => (fetchOne s).1.isNull = true
  | s, r :: rs => (fetchOne s).1 = r ∧ r.isNull = false ∧ Yields fetchOne (fetchOne s).2 rs

/-- The state of the stream after `n` calls of `fetchOne()`. -/
def after (fetchOne : σ → Row × σ) (n : Nat) (s : σ) : σ :=
  (fun t => (fetchOne t).2)^[n] s

/-- The stream in state `s` is at its end for good: every further call of
`fetchOne()` returns a null `Row`. -/
def Drained (fetchOne : σ → Row × σ) (s : σ) : Prop :=
  ∀ k : Nat, (fetchOne (after fetchOne k s)).1.isNull = true

/-- As `Yields`, and after the last row the stream is at its end for good. -/
def YieldsThenDrained (fetchOne : σ → Row × σ) : σ → List Row → Prop
  | s, [] => Drained fetchOne s
  | s, r :: rs =>
    (fetchOne s).1 = r ∧ r.isNull = false ∧ YieldsThenDrained fetchOne (fetchOne s).2 rs

end RowResult

/-- Modelled from the spec: the state `Row RowResult::fetchOne()` works on;
the method is declared in `result.h` and defined elsewhere. `m_row_cache` is
the member of that name, the rows already pulled and not yet handed out;
`reply` is what the Reply Source has yet to produce. -/
structure RowStream where
  m_row_cache : List Row
  reply : List Row
  deriving DecidableEq, Repr

/-- Modelled from the spec: `Row RowResult::fetchOne()`. "Returns the next
Row, advancing the stream by one, pulling from the row cache first if
non-empty, otherwise pulling directly from the Reply Source; returns a null
Row when the stream is exhausted." -/
def RowStream.fetchOne (s : RowStream) : Row × RowStream :=
  match s.m_row_cache with
  | r :: cache => (r, { s with m_row_cache := cache })
  | [] =>
    match s.reply with
    | r :: rest => (r, { s with reply := rest })
    | [] => (Row.default_ctor, s)

/-! ## Callers

A caller of a row result is a sequence of calls on one `RowResult` and on the
iterators it has obtained from it. -/

/-- One call of the caller of a row result: `fetchOne()`, `begin()` (the
iterator returned is kept as the next in the list of iterators), `++it` and
`*it` on the iterator with index `i`, and `fetchAll()` stored in a
container. -/
inductive RowOp where
  | fetchOne
  | begin
  | incr (i : Nat)
  | deref (i : Nat)
  | fetchAll
  deriving DecidableEq, Repr

/-- The state of a caller of a row result: the result, the iterators obtained
so far, and `out`, the non-null rows the calls have returned, in the order of
the calls. `fresh` is bookkeeping that no call reads: it is set when
`m_cur_row` holds a row that an iterator has pulled and that no `*it` has
returned yet. -/
structure RowCaller (σ : Type) where
  res : RowResult σ
  its : List internal.iterator
  out : List Row
  fresh : Bool

namespace RowCaller

variable {σ : Type}

/-- The rows the caller holds after a call returned `r`: a null `Row` is the
end marker and not a row. -/
def receive (out : List Row) (r : Row) : List Row :=
  if r.isNull then out else out ++ [r]

/-- The caller before its first call. -/
def start (s : σ) : RowCaller σ :=
  { res := { stream := s, m_cur_row := Row.default_ctor }, its := [], out := [], fresh := false }

/-- One call. `fuel` bounds the loop of a `fetchAll()` conversion; the result
is `none` when that bound is reached. A call on an iterator the caller does
not have is no call. -/
def step (fetchOne : σ → Row × σ) (fuel : Nat) (c : RowCaller σ) : RowOp → Option (RowCaller σ)
  | .fetchOne =>
    let r := fetchOne c.res.stream
    some { c with res := { c.res with stream := r.2 }, out := receive c.out r.1 }
  | .begin =>
    let b := RowResult.begin fetchOne c.res
    some { c with res := b.2, its := c.its ++ [b.1], fresh := !b.1.m_at_end }
  | .incr i =>
    match c.its[i]? with
    | none => some c
    | some it =>
      let r := it.incr (RowResult.driver fetchOne) c.res
      some { c with res := r.2, its := c.its.set i r.1,
                    fresh := if it.m_impl.isSome && !it.m_at_end then !r.1.m_at_end else c.fresh }
  | .deref i =>
    match c.its[i]? with
    | none => some c
    | some it =>
      match it.deref (RowResult.driver fetchOne) c.res with
      | (.ok r, res) => some { c with res := res, out := receive c.out r, fresh := false }
      | (.error _, res) => some { c with res := res }
  | .fetchAll =>
    match RowResult.fetchAll fetchOne fuel c.res with
    | none => none
    | some (.ok rows, res) => some { c with res := res, out := c.out ++ rows, fresh := false }
    | some (.error _, res) => some { c with res := res }

/-- A sequence of calls, one after the other. -/
def run (fetchOne : σ → Row × σ) (fuel : Nat) : RowCaller σ → List RowOp → Option (RowCaller σ)
  | c, [] => some c
  | c, op :: ops =>
    match step fetchOne fuel c op with
    | none => none
    | some c₁ => run fetchOne fuel c₁ ops

/-- The call `op` keeps the discipline of a single pass: a call that pulls
from the stream (`fetchOne()`, `begin()`, `fetchAll()`, `++it` on an iterator
that is not at its end) is made only when no pulled row waits in `m_cur_row`,
and `*it` is made only on an iterator that is not at its end while a pulled
row waits. -/
def allowed (c : RowCaller σ) : RowOp → Bool
  | .fetchOne => !c.fresh
  | .begin => !c.fresh
  | .incr i =>
    match c.its[i]? with
    | none => true
    | some it => !(it.m_impl.isSome && !it.m_at_end) || !c.fresh
  | .deref i =>
    match c.its[i]? with
    | none => true
    | some it => it.m_impl.isSome && !it.m_at_end && c.fresh
  | .fetchAll => !c.fresh

/-- Every call of the sequence keeps the discipline of `allowed` in the state
in which it is made. -/
def Disciplined (fetchOne : σ → Row × σ) (fuel : Nat) : RowCaller σ → List RowOp → Prop
  | _, [] => True
  | c, op :: ops =>
    allowed c op = true ∧
      match step fetchOne fuel c op with
      | none => True
      | some c₁ => Disciplined fetchOne fuel c₁ ops

/-- The row in `m_cur_row` that waits to be returned by a `*it`, if any. -/
def pending (c : RowCaller σ) : List Row :=
  if c.fresh then [c.res.m_cur_row] else []

/-- Every row of `rows` is accounted for once, in order: first the rows the
caller has been handed, then the row that waits in `m_cur_row`, if any, then
the rows `rest` the stream has yet to give. -/
def Accounted (fetchOne : σ → Row × σ) (rows : List Row) (c : RowCaller σ) (rest : List Row) :
    Prop :=
  RowResult.YieldsThenDrained fetchOne c.res.stream rest ∧
    c.out ++ pending c ++ rest = rows ∧
    (c.fresh = true → c.res.m_cur_row.isNull = false)

end RowCaller

/-- One call of the caller of the warnings of a handle: `begin()` (the
iterator returned is kept as the next in the list), `++it` and `*it` on the
iterator with index `i`. -/
inductive WarnOp where
  | begin
  | incr (i : Nat)
  | deref (i : Nat)
  deriving DecidableEq, Repr

/-- The state of a caller of the warnings of a handle: the handle, the
iterators obtained so far, and what each `*it` gave, with the index of the
iterator. -/
structure WarnCaller where
  res : internal.BaseResult
  its : List internal.iterator
  seen : List (Nat × Except (internal.DerefError Error) Warning)

namespace WarnCaller

/-- One call. A call on an iterator the caller does not have is no call. -/
def step (replies : Nat → List Warning) (c : WarnCaller) : WarnOp → WarnCaller
  | .begin =>
    let b := internal.BaseResult.begin replies c.res
    { c with res := b.2, its := c.its ++ [b.1] }
  | .incr i =>
    match c.its[i]? with
    | none => c
    | some it =>
      let r := it.incr (internal.BaseResult.driver replies) c.res
      { c with res := r.2, its := c.its.set i r.1 }
  | .deref i =>
    match c.its[i]? with
    | none => c
    | some it =>
      let r := it.deref (internal.BaseResult.driver replies) c.res
      { c with res := r.2, seen := c.seen ++ [(i, r.1)] }

/-- A sequence of calls, one after the other. -/
def run (replies : Nat → List Warning) (c : WarnCaller) (ops : List WarnOp) : WarnCaller :=
  ops.foldl (step replies) c

/-- What the dereferences of the iterator with index `i` gave, in order. -/
def yields (c : WarnCaller) (i : Nat) : List (Except (internal.DerefError Error) Warning) :=
  (c.seen.filter (fun e => e.1 == i)).map Prod.snd

/-- The call `op` leaves the position of the handle to the iterator with
index `k`: it is a call on that iterator, or a dereference of another
iterator, or an increment of another iterator that is at its end or has no
driver. A `begin()` is not such a call. -/
def leaves_to (k : Nat) (c : WarnCaller) : WarnOp → Bool
  | .begin => false
  | .incr j =>
    j == k ||
      (match c.its[j]? with
       | none => true
       | some it => it.m_at_end || it.m_impl.isNone)
  | .deref _ => true

/-- Every call of the sequence leaves the position of the handle to the
iterator with index `k`, in the state in which it is made. -/
def LeftTo (replies : Nat → List Warning) (k : Nat) : WarnCaller → List WarnOp → Prop
  | _, [] => True
  | c, op :: ops => leaves_to k c op = true ∧ LeftTo replies k (step replies c op) ops

/-- What the calls `ops` give through the iterator with index `k` when that
iterator is the only one in use on a reply with the warnings `ws`, and `pos`
counts its increments so far: a dereference gives the warning with index
`pos`, and fails with the null-iterator error once there is none. -/
def alone (ws : List Warning) (k : Nat) :
    Nat → List WarnOp → List (Except (internal.DerefError Error) Warning)
  | _, [] => []
  | pos, .begin :: ops => alone ws k pos ops
  | pos, .incr j :: ops =>
    if j = k then alone ws k (min (pos + 1) ws.length) ops else alone ws k pos ops
  | pos, .deref j :: ops =>
    if j = k then
      (match ws[pos]? with
       | some w => .ok w
       | none => .error .null_iterator) :: alone ws k pos ops
    else alone ws k pos ops

end WarnCaller

/-! ## Reply sources and their release -/

/-- The handles in memory together with the `Impl` objects that have been
released by `delete`. -/
structure Heap where
  handles : Nat → internal.BaseResult
  deleted : List Nat

/-- The move assignment of the handle at `self` from the handle at `other`,
in a heap. The body of `init` has no `delete`, so `deleted` stays as it is. -/
def Heap.move_assign (h : Heap) (self other : Nat) : Heap :=
  { h with handles := internal.BaseResult.move_assign h.handles self other }

/-! ## Concrete scenarios -/

namespace internal

namespace BaseResult

/-- A memory with two handles: at address 0 an empty one, at address 1 one that
owns the `Impl` at address 7; every other address holds an empty handle. -/
def twoHandles : Nat → BaseResult :=
  fun h => if h = 1 then { m_impl := some 7, m_owns_impl := true, m_pos := 2, m_wpos := 0,
                           m_at_begin := false }
           else default_ctor 0 false

/-- Replies: the `Impl` at address 7 wraps a reply with one warning, every
other one a reply without warnings. -/
def oneWarning : Nat → List Warning :=
  fun p => if p = 7 then [{ m_level := .WARNING, m_code := 1265, m_msg := "Data truncated" }]
           else []

/-- A warning. -/
def warning0 : Warning :=
  { m_level := .WARNING, m_code := 1265, m_msg := "Data truncated" }

/-- Another warning. -/
def warning1 : Warning :=
  { m_level := .INFO, m_code := 1003, m_msg := "Note" }

/-- Replies: the `Impl` at address 7 wraps a reply with the warnings `warning0`
and `warning1`, every other one a reply without warnings. -/
def twoWarnings : Nat → List Warning :=
  fun p => if p = 7 then [warning0, warning1] else []

/-- A handle that owns the `Impl` at address 7. -/
def boundHandle : BaseResult :=
  { m_impl := some 7, m_owns_impl := true, m_pos := 0, m_wpos := 0, m_at_begin := false }

end BaseResult

end internal

/-- A caller that holds `boundHandle` and has made no call yet. -/
def WarnCaller.fresh : WarnCaller :=
  { res := internal.BaseResult.boundHandle, its := [], seen := [] }

/-- A heap with two handles that each own an `Impl`: the handle at address 0
owns the one at address 5, the handle at address 1 the one at address 7;
nothing has been released. -/
def twoOwners : Heap :=
  { handles := fun h =>
      if h = 0 then { m_impl := some 5, m_owns_impl := true, m_pos := 0, m_wpos := 0,
                      m_at_begin := false }
      else if h = 1 then { m_impl := some 7, m_owns_impl := true, m_pos := 0, m_wpos := 0,
                           m_at_begin := false }
      else internal.BaseResult.default_ctor 0 false
    deleted := [] }

/-- A row with the field values 10 and 11. -/
def row0 : Row :=
  { m_impl := some [10, 11] }

/-- A row with the field values 20 and 21. -/
def row1 : Row :=
  { m_impl := some [20, 21] }

/-- A row with the field values 30 and 31. -/
def row2 : Row :=
  { m_impl := some [30, 31] }

/-- A row result on a stream with nothing cached whose reply has `row0` and
`row1` to produce. -/
def twoRows : RowResult RowStream :=
  { stream := { m_row_cache := [], reply := [row0, row1] }, m_cur_row := Row.default_ctor }

/-- A stream with nothing cached whose reply has `row0`, `row1` and `row2` to
produce. -/
def threeRows : RowStream :=
  { m_row_cache := [], reply := [row0, row1, row2] }

/-! ## Moves of row results -/

namespace RowResult

/-- The data members of a `RowResult` object: its `BaseResult` subobject and
the members `std::forward_list<Row> m_row_cache`,
`uint64_t m_row_cache_size = 0`, `bool m_cache = false` and
`Row m_cur_row`. -/
structure Members where
  base : internal.BaseResult
  m_row_cache : List Row
  m_row_cache_size : Nat
  m_cache : Bool
  m_cur_row : Row
  deriving DecidableEq, Repr

/-- The move assignment `RowResult& operator=(RowResult &&init_)`:
`BaseResult::operator=(std::move(init_)); return *this;`, on a memory of row
results. The `BaseResult` subobjects go through `BaseResult::operator=`; the
body names no other member. -/
def move_assign (mem : Nat → Members) (self init_ : Nat) : Nat → Members :=
  fun a =>
    { mem a with
      base := internal.BaseResult.move_assign (fun b => (mem b).base) self init_ a }

/-- The move constructor
`RowResult(RowResult &&other) : BaseResult(std::move(static_cast<BaseResult&>(other))) {}`,
on a memory of row results: the `BaseResult` subobject of the new object at
`self` is move-constructed from that of `other`; the members the initialiser
list does not name get their own initialisers, an empty `m_row_cache`,
`m_row_cache_size = 0`, `m_cache = false` and a null `m_cur_row`. -/
def move_ctor (mem : Nat → Members) (self other : Nat) : Nat → Members :=
  fun a =>
    if a = self then
      { base := internal.BaseResult.move_ctor (fun b => (mem b).base) self other a
        m_row_cache := []
        m_row_cache_size := 0
        m_cache := false
        m_cur_row := Row.default_ctor }
    else
      { mem a with
        base := internal.BaseResult.move_ctor (fun b => (mem b).base) self other a }

/-- Modelled from the spec: the stream `Row RowResult::fetchOne()` works on
for the object `o` (the method is declared in `result.h` and defined
elsewhere): the row cache of `o`, and the rows the reply behind `m_impl` of
`o` has yet to produce, which `replies` gives for the address of an `Impl`. -/
def Members.stream (replies : Nat → List Row) (o : Members) : RowStream :=
  { m_row_cache := o.m_row_cache
    reply := match o.base.m_impl with
      | none => []
      | some p => replies p }

end RowResult

/-- A memory with two row results. At address 1, one that owns the `Impl` at
address 7 and has buffered the two rows `row0` and `row1` of its reply. At
address 0, one that owns the `Impl` at address 5 and has buffered the row
`row2` of its reply. Every other address holds an empty row result. -/
def twoBuffered : Nat → RowResult.Members :=
  fun a =>
    if a = 1 then
      { base := { m_impl := some 7, m_owns_impl := true, m_pos := 0, m_wpos := 0,
                  m_at_begin := false }
        m_row_cache := [row0, row1], m_row_cache_size := 2, m_cache := true
        m_cur_row := Row.default_ctor }
    else if a = 0 then
      { base := { m_impl := some 5, m_owns_impl := true, m_pos := 0, m_wpos := 0,
                  m_at_begin := false }
        m_row_cache := [row2], m_row_cache_size := 1, m_cache := true
        m_cur_row := Row.default_ctor }
    else
      { base := internal.BaseResult.default_ctor 0 false
        m_row_cache := [], m_row_cache_size := 0, m_cache := false
        m_cur_row := Row.default_ctor }

/-- Replies that have no row left to produce: all their rows are buffered. -/
def noRowsLeft : Nat → List Row :=
  fun _ => []

/-! ## Two warning iterators on one handle -/

namespace internal

namespace BaseResult

/-- Two iterators obtained by `begin()` from `boundHandle`, whose reply carries
the two warnings of `twoWarnings`, and then each incremented once, the first
one first: the first iterator, the second iterator and the handle
afterwards. -/
def twoAdvanced : iterator × iterator × BaseResult :=
  let b₀ := begin twoWarnings boundHandle
  let b₁ := begin twoWarnings b₀.2
  let i₀ := iterator.incr (driver twoWarnings) b₀.1 b₁.2
  let i₁ := iterator.incr (driver twoWarnings) b₁.1 i₀.2
  (i₀.1, i₁.1, i₁.2)

end BaseResult

end internal

/-! ## The generic sequence iterator -/

namespace internal

/-- C3: two iterators compare equal (`a != b` is false) if and only if both
are at their end; so an iterator equals `end()` exactly when it is at its
end, a default-constructed iterator equals `end()`, and an iterator that is
not at its end differs from itself. -/
theorem iterator_equal_iff_both_at_end (a b : iterator) :
    (iterator.ne a b = false ↔ a.m_at_end = true ∧ b.m_at_end = true) ∧
    (iterator.ne a iterator.default_ctor = false ↔ a.m_at_end = true) ∧
    (iterator.ne a List_initializer.end_ = false ↔ a.m_at_end = true) ∧
    iterator.ne iterator.default_ctor List_initializer.end_ = false ∧
    iterator.ne a a = !a.m_at_end := by
  refine ⟨?_, ?_, ?_, ?_, ?_⟩
  · cases h₁ : a.m_at_end <;> cases h₂ : b.m_at_end <;> simp [iterator.ne, h₁, h₂]
  · cases h₁ : a.m_at_end <;> simp [iterator.ne, iterator.default_ctor, h₁]
  · cases h₁ : a.m_at_end <;>
      simp [iterator.ne, iterator.default_ctor, List_initializer.end_, h₁]
  · rfl
  · cases h₁ : a.m_at_end <;> simp [iterator.ne, h₁]

/-- C9, as amended: `*it` fails with the null-iterator error if and only if the
iterator is at its end or has no driver, and then the driver is not touched;
in every other case it returns what the driver's `iterator_get` returns and
leaves the driver as `iterator_get` leaves it, which for the row driver and
for the warning driver is the state it was in. For the row driver that is
the row in `m_cur_row`. For the warning driver it is `getWarning(m_wpos)`:
the warning of the reply at the position of the handle when there is one,
and the out-of-range failure when there is none, on a handle without a
reply as on a position that is not below the count. The iterator itself is
not changed: the operation is `const`, it returns no iterator. -/
theorem deref_fails_iff_at_end_or_null {σ ε α : Type} (d : Driver σ ε α) (it : iterator)
    (impl : σ) {τ : Type} (fetchOne : τ → Row × τ) (res : RowResult τ)
    (replies : Nat → List Warning) (r : BaseResult) :
    ((iterator.deref d it impl).1 = .error .null_iterator ↔
        (it.m_at_end = true ∨ it.m_impl = none)) ∧
    iterator.deref d it impl =
      (if it.m_at_end = true ∨ it.m_impl = none then (.error .null_iterator, impl)
       else ((match (d.iterator_get impl).1 with
              | .ok v => .ok v
              | .error e => .error (.impl e)), (d.iterator_get impl).2)) ∧
    (iterator.deref (RowResult.driver fetchOne) it res).2 = res ∧
    (iterator.deref (RowResult.driver fetchOne) it res).1 =
      (if it.m_at_end = true ∨ it.m_impl = none then .error .null_iterator
       else .ok res.m_cur_row) ∧
    (iterator.deref (BaseResult.driver replies) it r).2 = r ∧
    (iterator.deref (BaseResult.driver replies) it r).1 =
      (if it.m_at_end = true ∨ it.m_impl = none then .error .null_iterator
       else match r.m_impl with
         | none => .error (.impl .out_of_range)
         | some p =>
           match (replies p)[r.m_wpos]? with
           | some w => .ok w
           | none => .error (.impl .out_of_range)) := by
  have key : iterator.deref d it impl =
      (if it.m_at_end = true ∨ it.m_impl = none then (.error .null_iterator, impl)
       else ((match (d.iterator_get impl).1 with
              | .ok v => .ok v
              | .error e => .error (.impl e)), (d.iterator_get impl).2)) := by
    unfold iterator.deref
    rcases it with ⟨mi, ae⟩
    cases mi <;> cases ae <;> simp
    all_goals
      rcases hg : d.iterator_get impl with ⟨v, s⟩
      cases v <;> simp
  refine ⟨?_, key, ?_, ?_, ?_, ?_⟩
  · rw [key]
    by_cases h : it.m_at_end = true ∨ it.m_impl = none
    · simp [h]
    · simp only [h, if_false, iff_false]
      rcases hg : (d.iterator_get impl).1 with e | v <;> simp
  · rcases it with ⟨mi, ae⟩
    cases mi <;> cases ae <;>
      simp [iterator.deref, RowResult.driver, RowResult.iterator_get]
  · rcases it with ⟨mi, ae⟩
    cases mi <;> cases ae <;>
      simp [iterator.deref, RowResult.driver, RowResult.iterator_get]
  · rcases it with ⟨mi, ae⟩
    cases mi <;> cases ae <;>
      simp [iterator.deref, BaseResult.driver, BaseResult.iterator_get]
    all_goals
      cases BaseResult.getWarning replies r r.m_wpos <;> simp
  · rcases it with ⟨mi, ae⟩
    cases mi <;> cases ae <;>
      simp [iterator.deref, BaseResult.driver, BaseResult.iterator_get, BaseResult.getWarning]
    cases hm : r.m_impl with
    | none => simp
    | some p =>
      cases hw : (replies p)[r.m_wpos]? <;> simp [hw]

/-- C9 fails as stated: two iterators are obtained from a handle whose reply
carries two warnings, and each is incremented once, the first one first. The
first iterator is then not at its end and has a driver, the position of the
handle is 2, and a dereference of the first iterator returns no warning: it
fails, and not with the null-iterator error but with the out-of-range
error of `getWarning`. -/
theorem live_warning_iterator_deref_returns_no_element :
    BaseResult.twoAdvanced.1.m_at_end = false ∧
    BaseResult.twoAdvanced.1.m_impl = some () ∧
    BaseResult.twoAdvanced.2.2.m_wpos = 2 ∧
    BaseResult.getWarningCount BaseResult.twoWarnings BaseResult.twoAdvanced.2.2 = 2 ∧
    (iterator.deref (BaseResult.driver BaseResult.twoWarnings) BaseResult.twoAdvanced.1
        BaseResult.twoAdvanced.2.2).1 = .error (.impl .out_of_range) ∧
    (∀ w, (iterator.deref (BaseResult.driver BaseResult.twoWarnings) BaseResult.twoAdvanced.1
        BaseResult.twoAdvanced.2.2).1 ≠ .ok w) := by
  refine ⟨rfl, rfl, rfl, rfl, rfl, ?_⟩
  intro w h
  have h₁ : (iterator.deref (BaseResult.driver BaseResult.twoWarnings) BaseResult.twoAdvanced.1
      BaseResult.twoAdvanced.2.2).1 = .error (.impl .out_of_range) := rfl
  rw [h₁] at h
  cases h

/-- C10: `++it` on an iterator that is at its end, or that has no driver as the
default-constructed end marker, changes neither the iterator nor the driver:
`iterator_next` is not called. On any other iterator it is one call of the
driver's `iterator_next`, and the iterator is at its end afterwards exactly
when that call returned false. An iterator made by a constructor has a
driver unless it is at its end. -/
theorem incr_noop_iff_at_end_or_null {σ ε α : Type} (d : Driver σ ε α) (it : iterator)
    (impl : σ) :
    iterator.incr d it impl =
      (if it.m_at_end = true ∨ it.m_impl = none then (it, impl)
       else ({ m_impl := it.m_impl, m_at_end := !(d.iterator_next impl).1 },
             (d.iterator_next impl).2)) ∧
    iterator.incr d iterator.default_ctor impl = (iterator.default_ctor, impl) ∧
    (iterator.ofImpl d impl).1.m_impl = some () ∧
    iterator.default_ctor.m_at_end = true := by
  refine ⟨?_, rfl, rfl, rfl⟩
  rcases it with ⟨mi, ae⟩
  cases mi <;> cases ae <;> simp [iterator.incr]

end internal


/-! ## Ownership transfer -/

namespace internal

namespace BaseResult

theorem init_self (mem : Nat → BaseResult) (self other : Nat) (hne : self ≠ other) :
    init mem self other self =
      { mem self with m_pos := 0, m_impl := (mem other).m_impl,
                      m_owns_impl := (mem other).m_owns_impl } := by
  have hne2 : other ≠ self := fun h => hne h.symm
  unfold init
  cases ho : (mem other).m_owns_impl <;>
    simp [Function.update_same, Function.update_noteq, hne, hne2, ho]

theorem init_other (mem : Nat → BaseResult) (self other : Nat) (hne : self ≠ other) :
    init mem self other other = { mem other with m_owns_impl := false } := by
  have hne2 : other ≠ self := fun h => hne h.symm
  unfold init
  cases ho : (mem other).m_owns_impl <;>
    simp [Function.update_same, Function.update_noteq, hne, hne2, ho]
  rcases hm : mem other with ⟨a, b, c, d, e⟩
  rw [hm] at ho
  simp at ho
  simp [ho]

theorem init_frame (mem : Nat → BaseResult) (self other h : Nat)
    (h₁ : h ≠ self) (h₂ : h ≠ other) : init mem self other h = mem h := by
  unfold init
  cases ho : (mem other).m_owns_impl <;>
    by_cases hso : other = self <;>
    simp [Function.update_same, Function.update_noteq, h₁, h₂, ho, hso]
  all_goals (subst hso; simp [ho, Function.update_noteq, h₂])


theorem owns_init_iff (mem : Nat → BaseResult) (self other : Nat) (hne : self ≠ other)
    (h x : Nat) :
    owns (init mem self other) h x ↔
      (h = self ∧ owns mem other x) ∨ (h ≠ self ∧ h ≠ other ∧ owns mem h x) := by
  by_cases h₁ : h = self
  · subst h₁
    simp [owns, init_self mem h other hne]
  · by_cases h₂ : h = other
    · subst h₂
      simp [owns, init_other mem self h hne, h₁]
    · simp [owns, init_frame mem self other h h₁ h₂, h₁, h₂]

theorem init_at_most_one_owner (mem : Nat → BaseResult) (self other : Nat) (hne : self ≠ other)
    (hamo : at_most_one_owner mem) : at_most_one_owner (init mem self other) := by
  intro x h₁ h₂ o₁ o₂
  rw [owns_init_iff mem self other hne] at o₁ o₂
  rcases o₁ with ⟨e₁, p₁⟩ | ⟨n₁, m₁, p₁⟩ <;> rcases o₂ with ⟨e₂, p₂⟩ | ⟨n₂, m₂, p₂⟩
  · rw [e₁, e₂]
  · exact absurd (hamo x _ _ p₂ p₁) m₂
  · exact absurd (hamo x _ _ p₁ p₂) m₁
  · exact hamo x _ _ p₁ p₂

theorem at_most_one_owner_fresh (mem : Nat → BaseResult) (self : Nat) (wpos : Nat)
    (at_begin : Bool) (hamo : at_most_one_owner mem) :
    at_most_one_owner (Function.update mem self (default_ctor wpos at_begin)) := by
  have sub : ∀ h x, owns (Function.update mem self (default_ctor wpos at_begin)) h x →
      owns mem h x := by
    intro h x o
    by_cases e : h = self
    · subst e
      simp [owns, default_ctor] at o
    · simpa [owns, Function.update_noteq e] using o
  intro x h₁ h₂ o₁ o₂
  exact hamo x h₁ h₂ (sub _ _ o₁) (sub _ _ o₂)

/-- C4: a move into the handle at `self` from a distinct handle at `other`, by
assignment or by construction, makes `self` refer to what `other` referred
to, own it exactly when `other` owned it, and leaves `other` not owning it;
if no reply source had two owning handles before, none has after, and a
source `other` owned has `self` as its only owner. -/
theorem move_transfers_ownership (mem : Nat → BaseResult) (self other : Nat)
    (hne : self ≠ other) :
    ((move_assign mem self other self).m_impl = (mem other).m_impl ∧
      (move_assign mem self other self).m_owns_impl = (mem other).m_owns_impl ∧
      (move_assign mem self other other).m_owns_impl = false ∧
      (at_most_one_owner mem →
        at_most_one_owner (move_assign mem self other) ∧
        ∀ x, owns mem other x → ∀ h, owns (move_assign mem self other) h x ↔ h = self)) ∧
    ((move_ctor mem self other self).m_impl = (mem other).m_impl ∧
      (move_ctor mem self other self).m_owns_impl = (mem other).m_owns_impl ∧
      (move_ctor mem self other other).m_owns_impl = false ∧
      (at_most_one_owner mem →
        at_most_one_owner (move_ctor mem self other) ∧
        ∀ x, owns mem other x → ∀ h, owns (move_ctor mem self other) h x ↔ h = self)) := by
  have hne2 : other ≠ self := fun h => hne h.symm
  have sole : ∀ m : Nat → BaseResult, at_most_one_owner m →
      ∀ x, owns m other x → ∀ h, owns (init m self other) h x ↔ h = self := by
    intro m hamo x ox h
    rw [owns_init_iff m self other hne]
    constructor
    · rintro (⟨e, _⟩ | ⟨_, n, p⟩)
      · exact e
      · exact absurd (hamo x _ _ p ox) n
    · intro e
      exact Or.inl ⟨e, ox⟩
  constructor
  · refine ⟨?_, ?_, ?_, ?_⟩
    · simp [move_assign, init_self mem self other hne]
    · simp [move_assign, init_self mem self other hne]
    · simp [move_assign, init_other mem self other hne]
    · intro hamo
      exact ⟨init_at_most_one_owner mem self other hne hamo, sole mem hamo⟩
  · have ho : Function.update mem self (default_ctor (mem self).m_wpos (mem self).m_at_begin)
        other = mem other := Function.update_noteq hne2 _ _
    refine ⟨?_, ?_, ?_, ?_⟩
    · simp [move_ctor, init_self _ self other hne, ho]
    · simp [move_ctor, init_self _ self other hne, ho]
    · simp [move_ctor, init_other _ self other hne]
    · intro hamo
      have hamo₀ := at_most_one_owner_fresh mem self (mem self).m_wpos (mem self).m_at_begin hamo
      refine ⟨init_at_most_one_owner _ self other hne hamo₀, ?_⟩
      intro x ox h
      have ox₀ : owns (Function.update mem self
          (default_ctor (mem self).m_wpos (mem self).m_at_begin)) other x := by
        simpa [owns, ho] using ox
      exact sole _ hamo₀ x ox₀ h

theorem twoHandles_amo : at_most_one_owner twoHandles := by
  intro x h₁ h₂ o₁ o₂
  by_cases e₁ : h₁ = 1 <;> by_cases e₂ : h₂ = 1 <;>
    simp_all [owns, twoHandles, default_ctor]

/-- An instance of C4: the empty handle 0 is moved into from handle 1, which owns
the `Impl` at address 7. -/
theorem move_transfers_ownership_witness :
    (0 : Nat) ≠ 1 ∧ at_most_one_owner twoHandles ∧
    (move_assign twoHandles 0 1 0).m_impl = (twoHandles 1).m_impl ∧
    (move_assign twoHandles 0 1 0).m_owns_impl = (twoHandles 1).m_owns_impl ∧
    (move_assign twoHandles 0 1 1).m_owns_impl = false ∧
    at_most_one_owner (move_assign twoHandles 0 1) ∧
    at_most_one_owner (move_ctor twoHandles 0 1) :=
  ⟨by decide, twoHandles_amo,
    (move_transfers_ownership twoHandles 0 1 (by decide)).1.1,
    (move_transfers_ownership twoHandles 0 1 (by decide)).1.2.1,
    (move_transfers_ownership twoHandles 0 1 (by decide)).1.2.2.1,
    ((move_transfers_ownership twoHandles 0 1 (by decide)).1.2.2.2 twoHandles_amo).1,
    ((move_transfers_ownership twoHandles 0 1 (by decide)).2.2.2.2 twoHandles_amo).1⟩

/-- C5, as amended: a move of handle `A` into a distinct handle `B`, by
assignment or by construction, makes `B` refer to the reply source of `A`
with the ownership flag `A` had, so that `B.getWarningCount()` is what
`A.getWarningCount()` was, for the spec's reading of `getWarningCount` and
for every function of `m_impl` and `m_owns_impl`; it leaves `A` not owning,
and `A` keeps its reference to the reply source: `m_impl` of `A` is not
reset. What `A.getWarningCount()` returns afterwards is not stated. -/
theorem move_keeps_warning_count (replies : Nat → List Warning) (mem : Nat → BaseResult)
    (A B : Nat) (hne : B ≠ A) :
    ((move_assign mem B A B).m_impl = (mem A).m_impl ∧
      (move_assign mem B A B).m_owns_impl = (mem A).m_owns_impl ∧
      getWarningCount replies (move_assign mem B A B) = getWarningCount replies (mem A) ∧
      (∀ count : Option Nat → Bool → Nat,
        count (move_assign mem B A B).m_impl (move_assign mem B A B).m_owns_impl =
          count (mem A).m_impl (mem A).m_owns_impl) ∧
      (move_assign mem B A A).m_owns_impl = false ∧
      (move_assign mem B A A).m_impl = (mem A).m_impl) ∧
    ((move_ctor mem B A B).m_impl = (mem A).m_impl ∧
      (move_ctor mem B A B).m_owns_impl = (mem A).m_owns_impl ∧
      getWarningCount replies (move_ctor mem B A B) = getWarningCount replies (mem A) ∧
      (∀ count : Option Nat → Bool → Nat,
        count (move_ctor mem B A B).m_impl (move_ctor mem B A B).m_owns_impl =
          count (mem A).m_impl (mem A).m_owns_impl) ∧
      (move_ctor mem B A A).m_owns_impl = false ∧
      (move_ctor mem B A A).m_impl = (mem A).m_impl) := by
  have hne2 : A ≠ B := fun h => hne h.symm
  have ho : Function.update mem B (default_ctor (mem B).m_wpos (mem B).m_at_begin) A = mem A :=
    Function.update_noteq hne2 _ _
  refine ⟨⟨?_, ?_, ?_, ?_, ?_, ?_⟩, ⟨?_, ?_, ?_, ?_, ?_, ?_⟩⟩
  · simp [move_assign, init_self mem B A hne]
  · simp [move_assign, init_self mem B A hne]
  · simp [move_assign, init_self mem B A hne, getWarningCount]
  · intro count
    simp [move_assign, init_self mem B A hne]
  · simp [move_assign, init_other mem B A hne]
  · simp [move_assign, init_other mem B A hne]
  · simp [move_ctor, init_self _ B A hne, ho]
  · simp [move_ctor, init_self _ B A hne, ho]
  · simp [move_ctor, init_self _ B A hne, getWarningCount, ho]
  · intro count
    simp [move_ctor, init_self _ B A hne, ho]
  · simp [move_ctor, init_other _ B A hne]
  · simp [move_ctor, init_other _ B A hne, ho]

/-- An instance of the amended C5: handle 1, bound to a reply with one warning,
is moved into handle 0. -/
theorem move_keeps_warning_count_witness :
    (0 : Nat) ≠ 1 ∧
    ((move_assign twoHandles 0 1 0).m_impl = (twoHandles 1).m_impl ∧
      (move_assign twoHandles 0 1 0).m_owns_impl = (twoHandles 1).m_owns_impl ∧
      getWarningCount oneWarning (move_assign twoHandles 0 1 0) =
        getWarningCount oneWarning (twoHandles 1) ∧
      (∀ count : Option Nat → Bool → Nat,
        count (move_assign twoHandles 0 1 0).m_impl (move_assign twoHandles 0 1 0).m_owns_impl =
          count (twoHandles 1).m_impl (twoHandles 1).m_owns_impl) ∧
      (move_assign twoHandles 0 1 1).m_owns_impl = false ∧
      (move_assign twoHandles 0 1 1).m_impl = (twoHandles 1).m_impl) :=
  ⟨by decide, (move_keeps_warning_count oneWarning twoHandles 1 0 (by decide)).1⟩

/-- C5 fails as stated: handle 1 is bound to the reply source at address 7, which
carries one warning, and is moved into handle 0, by assignment or by
construction. Handle 1 is not left empty: its `m_impl` still refers to the
reply source at address 7. -/
theorem moved_from_handle_not_empty :
    (twoHandles 1).m_impl = some 7 ∧
    getWarningCount oneWarning (twoHandles 1) = 1 ∧
    (move_assign twoHandles 0 1 1).m_impl = some 7 ∧
    (move_ctor twoHandles 0 1 1).m_impl = some 7 ∧
    ¬ (move_assign twoHandles 0 1 1).m_impl = none ∧
    ¬ (move_ctor twoHandles 0 1 1).m_impl = none := by
  decide

end BaseResult

end internal

/-- C6 fails on the code: handle 0 owns the `Impl` at address 5 and is
move-assigned from handle 1, which owns the `Impl` at address 7. Afterwards
handle 0 owns the `Impl` at 7, no handle refers to the `Impl` at 5, and the
`Impl` at 5 has not been released. -/
theorem move_assign_leaves_owned_source_unreleased :
    internal.BaseResult.owns twoOwners.handles 0 5 ∧
    internal.BaseResult.owns (twoOwners.move_assign 0 1).handles 0 7 ∧
    (∀ h, ((twoOwners.move_assign 0 1).handles h).m_impl ≠ some 5) ∧
    5 ∉ (twoOwners.move_assign 0 1).deleted := by
  refine ⟨by decide, by decide, ?_, by decide⟩
  intro h
  by_cases h₀ : h = 0
  · subst h₀
    decide
  · by_cases h₁ : h = 1
    · subst h₁
      decide
    · show (internal.BaseResult.init twoOwners.handles 0 1 h).m_impl ≠ some 5
      rw [internal.BaseResult.init_frame twoOwners.handles 0 1 h h₀ h₁]
      simp [twoOwners, h₀, h₁, internal.BaseResult.default_ctor]

/-! ## Warnings -/

namespace internal

namespace BaseResult

theorem warn_loop (replies : Nat → List Warning) (r : BaseResult) (p : Nat)
    (hp : r.m_impl = some p) (hn : (replies p).length < 2 ^ 32) :
    ∀ (fuel k : Nat) (acc : List Warning), k ≤ (replies p).length →
      (replies p).length - k < fuel →
      range_loop (driver replies) fuel
          { m_impl := some (), m_at_end := !decide (k < (replies p).length) }
          iterator.default_ctor { r with m_wpos := k, m_at_begin := false } acc =
        some (.ok (acc ++ (replies p).drop k),
              { r with m_wpos := (replies p).length, m_at_begin := false }) := by
  rcases r with ⟨mi, mo, mp, mw, mb⟩
  simp only at hp
  subst hp
  intro fuel
  induction fuel with
  | zero => intro k acc _ h; omega
  | succ fuel ih =>
    intro k acc hk hf
    by_cases hlt : k < (replies p).length
    · have hget : (replies p)[k]? = some ((replies p)[k]) := List.getElem?_eq_getElem hlt
      have hmod : (k + 1) % 4294967296 = k + 1 := Nat.mod_eq_of_lt (by omega)
      have hdrop : (replies p).drop k = (replies p)[k] :: (replies p).drop (k + 1) :=
        List.drop_eq_getElem_cons hlt
      have ih' := ih (k + 1) (acc ++ [(replies p)[k]]) hlt (by omega)
      rw [hdrop]
      simpa [range_loop, iterator.ne, iterator.default_ctor, iterator.deref, iterator.incr,
        driver, iterator_get, iterator_next, getWarning, getWarningCount, hlt, hget, hmod]
        using ih'
    · have hk' : k = (replies p).length := by omega
      subst hk'
      simp [range_loop, iterator.ne, iterator.default_ctor]

theorem getWarnings_eq (replies : Nat → List Warning) (r : BaseResult) (p fuel : Nat)
    (hp : r.m_impl = some p) (hn : (replies p).length < 2 ^ 32)
    (hf : (replies p).length < fuel) :
    getWarnings replies fuel r =
      some (.ok (replies p), { r with m_wpos := (replies p).length, m_at_begin := false }) := by
  have h := warn_loop replies r p hp hn fuel 0 [] (Nat.zero_le _) (by omega)
  simpa [getWarnings, List_initializer.toContainer, List_initializer.begin,
    List_initializer.end_, iterator.ofImpl, driver, iterator_start, iterator_next,
    getWarningCount, hp] using h

theorem map_getWarning_range (replies : Nat → List Warning) (r : BaseResult) (p : Nat)
    (hp : r.m_impl = some p) :
    (List.range (replies p).length).map (getWarning replies r) = (replies p).map Except.ok := by
  apply List.ext_getElem
  · simp
  · intro i h₁ h₂
    have hi : i < (replies p).length := by simpa using h₂
    simp [getWarning, hp, List.getElem?_eq_getElem hi]

/-- C7, as amended: on a handle whose reply carries `n` warnings, a complete
pass over `getWarnings()` from `begin()` to `end()` during which no call is
made on another iterator of the handle ends (given a loop bound above `n`)
without a failure and yields the warnings `getWarning(0)`, ...,
`getWarning(n-1)` in that order, every index at or above `n` being one at
which `getWarning` would fail; the pass leaves the handle in a state from
which a second such pass yields the same sequence again. -/
theorem warnings_pass_yields_all (replies : Nat → List Warning) (r : BaseResult)
    (p fuel : Nat) (hp : r.m_impl = some p) (hn : getWarningCount replies r < 2 ^ 32)
    (hf : getWarningCount replies r < fuel) :
    getWarnings replies fuel r =
      some (.ok (replies p),
            { r with m_wpos := getWarningCount replies r, m_at_begin := false }) ∧
    getWarnings replies fuel
        { r with m_wpos := getWarningCount replies r, m_at_begin := false } =
      some (.ok (replies p),
            { r with m_wpos := getWarningCount replies r, m_at_begin := false }) ∧
    (replies p).map Except.ok =
      (List.range (getWarningCount replies r)).map (getWarning replies r) ∧
    (∀ i, getWarningCount replies r ≤ i → getWarning replies r i = .error .out_of_range) := by
  have hc : getWarningCount replies r = (replies p).length := by simp [getWarningCount, hp]
  rw [hc] at hn hf
  rw [hc]
  refine ⟨getWarnings_eq replies r p fuel hp hn hf, ?_, ?_, ?_⟩
  · have h := getWarnings_eq replies
      { r with m_wpos := (replies p).length, m_at_begin := false } p fuel hp hn hf
    simpa using h
  · exact (map_getWarning_range replies r p hp).symm
  · intro i hi
    have : (replies p)[i]? = none := List.getElem?_eq_none hi
    simp [getWarning, hp, this]

/-- An instance of the amended C7: a pass over the two warnings of
`boundHandle`. -/
theorem warnings_pass_yields_all_witness :
    boundHandle.m_impl = some 7 ∧ getWarningCount twoWarnings boundHandle < 2 ^ 32 ∧
    getWarningCount twoWarnings boundHandle < 3 ∧
    getWarnings twoWarnings 3 boundHandle =
      some (.ok (twoWarnings 7),
            { boundHandle with m_wpos := getWarningCount twoWarnings boundHandle,
                               m_at_begin := false }) :=
  ⟨rfl, by decide, by decide,
    (warnings_pass_yields_all twoWarnings boundHandle 7 3 rfl (by decide) (by decide)).1⟩

end BaseResult

end internal

namespace WarnCaller

theorem deref_state (replies : Nat → List Warning) (it : internal.iterator)
    (r : internal.BaseResult) :
    (internal.iterator.deref (internal.BaseResult.driver replies) it r).2 = r := by
  unfold internal.iterator.deref
  split
  · rfl
  · simp only [internal.BaseResult.driver, internal.BaseResult.iterator_get]
    cases internal.BaseResult.getWarning replies r r.m_wpos <;> rfl

theorem step_m_impl (replies : Nat → List Warning) (c : WarnCaller) (op : WarnOp) :
    (step replies c op).res.m_impl = c.res.m_impl := by
  cases op with
  | begin =>
    simp only [step, internal.BaseResult.begin, internal.iterator.ofImpl,
      internal.BaseResult.driver, internal.BaseResult.iterator_next,
      internal.BaseResult.iterator_start]
    split <;> rfl
  | incr i =>
    simp only [step]
    cases c.its[i]? with
    | none => rfl
    | some it =>
      simp only [internal.iterator.incr, internal.BaseResult.driver,
        internal.BaseResult.iterator_next]
      split
      · split <;> rfl
      · rfl
  | deref i =>
    simp only [step]
    cases c.its[i]? with
    | none => rfl
    | some it =>
      show (internal.iterator.deref (internal.BaseResult.driver replies) it c.res).2.m_impl =
        c.res.m_impl
      rw [deref_state]

theorem run_m_impl (replies : Nat → List Warning) (ops : List WarnOp) :
    ∀ c : WarnCaller, (run replies c ops).res.m_impl = c.res.m_impl := by
  induction ops with
  | nil => intro c; rfl
  | cons op ops ih =>
    intro c
    show (run replies (step replies c op) ops).res.m_impl = c.res.m_impl
    rw [ih, step_m_impl]

theorem incr_at_end {σ ε α : Type} (d : internal.Driver σ ε α) (it : internal.iterator)
    (impl : σ) (h : (it.m_at_end || it.m_impl.isNone) = true) :
    internal.iterator.incr d it impl = (it, impl) := by
  rcases it with ⟨mi, ae⟩
  cases mi <;> cases ae <;> simp [internal.iterator.incr] at h ⊢

theorem yields_seen (c : WarnCaller) (res : internal.BaseResult) (its : List internal.iterator)
    (j k : Nat) (r : Except (internal.DerefError Error) Warning) :
    yields { res := res, its := its, seen := c.seen ++ [(j, r)] } k =
      if j = k then yields c k ++ [r] else yields c k := by
  by_cases h : j = k <;> simp [yields, List.filter_append, h]

theorem yields_same_seen (c : WarnCaller) (res : internal.BaseResult)
    (its : List internal.iterator) (k : Nat) :
    yields { res := res, its := its, seen := c.seen } k = yields c k :=
  rfl

theorem left_to_run (replies : Nat → List Warning) (p k : Nat)
    (hn : (replies p).length < 2 ^ 32) :
    ∀ (ops : List WarnOp) (c : WarnCaller) (pos : Nat), c.res.m_impl = some p →
      c.res.m_wpos = pos → c.res.m_at_begin = false →
      c.its[k]? = some { m_impl := some (), m_at_end := decide ((replies p).length ≤ pos) } →
      pos ≤ (replies p).length → LeftTo replies k c ops →
      yields (run replies c ops) k = yields c k ++ alone (replies p) k pos ops := by
  intro ops
  induction ops with
  | nil =>
    intro c pos _ _ _ _ _ _
    simp [run, alone]
  | cons op ops ih =>
    intro c pos hp hw hb hk hle hq
    obtain ⟨hl, hq'⟩ := hq
    show yields (run replies (step replies c op) ops) k = _
    cases op with
    | begin => simp [leaves_to] at hl
    | deref j =>
      by_cases hj : j = k
      · subst hj
        have hst : step replies c (.deref j) =
            { res := c.res, its := c.its,
              seen := c.seen ++ [(j, match (replies p)[pos]? with
                                     | some w => .ok w
                                     | none => .error .null_iterator)] } := by
          rcases c with ⟨res, its, seen⟩
          rcases res with ⟨mi, mo, mp, mw, mb⟩
          simp only at hp hw hb hk
          subst hp hw hb
          by_cases hlt : mw < (replies p).length
          · have hnle : ¬ (replies p).length ≤ mw := by omega
            simp [step, hk, internal.iterator.deref, internal.BaseResult.driver,
              internal.BaseResult.iterator_get, internal.BaseResult.getWarning, hnle,
              List.getElem?_eq_getElem hlt]
          · have hge : (replies p).length ≤ mw := by omega
            simp [step, hk, internal.iterator.deref, hge, List.getElem?_eq_none hge]
        rw [hst] at hq' ⊢
        have h := ih _ pos (by exact hp) (by exact hw) (by exact hb) (by exact hk) hle hq'
        rw [h, yields_seen]
        simp [alone]
      · cases hi : c.its[j]? with
        | none =>
          have hst : step replies c (.deref j) = c := by simp [step, hi]
          rw [hst] at hq' ⊢
          rw [ih c pos hp hw hb hk hle hq']
          simp [alone, hj]
        | some it =>
          have hst : step replies c (.deref j) =
              { res := c.res, its := c.its,
                seen := c.seen ++ [(j, (internal.iterator.deref
                  (internal.BaseResult.driver replies) it c.res).1)] } := by
            simp [step, hi, deref_state]
          rw [hst] at hq' ⊢
          have h := ih _ pos (by exact hp) (by exact hw) (by exact hb) (by exact hk) hle hq'
          rw [h, yields_seen]
          simp [alone, hj]
    | incr j =>
      by_cases hj : j = k
      · subst hj
        have hklt : j < c.its.length := by
          rcases List.getElem?_eq_some_iff.mp hk with ⟨h, _⟩
          exact h
        by_cases hlt : pos < (replies p).length
        · have hst : step replies c (.incr j) =
              { res := { c.res with m_wpos := pos + 1, m_at_begin := false },
                its := c.its.set j
                  ({ m_impl := some (), m_at_end := decide ((replies p).length ≤ pos + 1) }),
                seen := c.seen } := by
            have hmod : (pos + 1) % 4294967296 = pos + 1 := Nat.mod_eq_of_lt (by omega)
            have hnle : ¬ (replies p).length ≤ pos := by omega
            rcases c with ⟨res, its, seen⟩
            rcases res with ⟨mi, mo, mp, mw, mb⟩
            simp only at hp hw hb hk
            subst hp hw hb
            have hdec : (!decide (mw + 1 < (replies p).length)) =
                decide ((replies p).length ≤ mw + 1) := by
              by_cases h : mw + 1 < (replies p).length
              · have h' : ¬ (replies p).length ≤ mw + 1 := by omega
                simp [h, h']
              · have h' : (replies p).length ≤ mw + 1 := by omega
                simp [h, h']
            simp [step, hk, internal.iterator.incr, internal.BaseResult.driver,
              internal.BaseResult.iterator_next, internal.BaseResult.getWarningCount, hnle,
              hmod, hdec]
          rw [hst] at hq' ⊢
          have h := ih _ (pos + 1) (by exact hp) (by rfl) (by rfl)
            (by simp [List.getElem?_set_self, hklt]) (by omega) hq'
          rw [h, yields_same_seen]
          have hmin : min (pos + 1) (replies p).length = pos + 1 := by omega
          simp [alone, hmin]
        · have hge : (replies p).length ≤ pos := by omega
          have hst : step replies c (.incr j) =
              { res := c.res,
                its := c.its.set j
                  ({ m_impl := some (), m_at_end := decide ((replies p).length ≤ pos) }),
                seen := c.seen } := by
            simp [step, hk, internal.iterator.incr, hge]
          rw [hst] at hq' ⊢
          have h := ih _ pos (by exact hp) (by exact hw) (by exact hb)
            (by simp [List.getElem?_set_self, hklt]) hle hq'
          rw [h, yields_same_seen]
          have hmin : min (pos + 1) (replies p).length = pos := by omega
          simp [alone, hmin]
      · cases hi : c.its[j]? with
        | none =>
          have hst : step replies c (.incr j) = c := by simp [step, hi]
          rw [hst] at hq' ⊢
          rw [ih c pos hp hw hb hk hle hq']
          simp [alone, hj]
        | some it =>
          have hend : (it.m_at_end || it.m_impl.isNone) = true := by
            simpa [leaves_to, hj, hi] using hl
          have hst : step replies c (.incr j) =
              { res := c.res, its := c.its.set j it, seen := c.seen } := by
            simp [step, hi, incr_at_end _ it c.res hend]
          rw [hst] at hq' ⊢
          have h := ih _ pos (by exact hp) (by exact hw) (by exact hb)
            (by simp [List.getElem?_set_ne hj, hk]) hle hq'
          rw [h, yields_same_seen]
          simp [alone, hj]

theorem begin_state (replies : Nat → List Warning) (c : WarnCaller) (p : Nat)
    (hp : c.res.m_impl = some p) :
    step replies c .begin =
      { res := { c.res with m_wpos := 0, m_at_begin := false },
        its := c.its ++ [{ m_impl := some (), m_at_end := decide ((replies p).length ≤ 0) }],
        seen := c.seen } := by
  rcases c with ⟨res, its, seen⟩
  rcases res with ⟨mi, mo, mp, mw, mb⟩
  simp only at hp
  subst hp
  simp [step, internal.BaseResult.begin, internal.iterator.ofImpl, internal.BaseResult.driver,
    internal.BaseResult.iterator_start, internal.BaseResult.iterator_next,
    internal.BaseResult.getWarningCount]
  cases replies p <;> simp

/-- C8, as amended: the iterators of a handle share the position of the handle.
Whatever calls were made before on iterators of the handle, (1) a pass that
starts then with `begin()` and runs to `end()` with no call on another
iterator in between yields all the warnings of the reply in order, and (2)
an iterator obtained then by `begin()` gives, at each dereference, the
warning whose index is the number of its increments so far (and fails with
the null-iterator error once there is none), as long as the calls in
between are calls on it, dereferences of other iterators, or increments of
other iterators that are at their end. -/
theorem warnings_pass_after_any_calls (replies : Nat → List Warning) (c : WarnCaller)
    (pre ops : List WarnOp) (p fuel : Nat) (hp : c.res.m_impl = some p)
    (hn : (replies p).length < 2 ^ 32) (hf : (replies p).length < fuel)
    (hq : LeftTo replies (run replies c pre).its.length
      (step replies (run replies c pre) .begin) ops) :
    (internal.BaseResult.getWarnings replies fuel (run replies c pre).res).map Prod.fst =
      some (.ok (replies p)) ∧
    yields (run replies c (pre ++ .begin :: ops)) (run replies c pre).its.length =
      yields (run replies c pre) (run replies c pre).its.length ++
        alone (replies p) (run replies c pre).its.length 0 ops := by
  have hp' : (run replies c pre).res.m_impl = some p := by rw [run_m_impl, hp]
  constructor
  · rw [internal.BaseResult.getWarnings_eq replies _ p fuel hp' hn hf]
    rfl
  · have hrun : run replies c (pre ++ .begin :: ops) =
        run replies (step replies (run replies c pre) .begin) ops := by
      simp [run, List.foldl_append]
    rw [hrun]
    rw [begin_state replies _ p hp'] at hq ⊢
    have h := left_to_run replies p _ hn ops _ 0 (by exact hp') (by rfl) (by rfl) (by simp)
      (Nat.zero_le _) hq
    rw [h]
    rfl

/-- An instance of the amended C8: a first iterator is run to its end, then a
second one is obtained and used while the first is dereferenced and
incremented at its end. -/
theorem warnings_pass_after_any_calls_witness :
    WarnCaller.fresh.res.m_impl = some 7 ∧
    (internal.BaseResult.twoWarnings 7).length < 2 ^ 32 ∧
    (internal.BaseResult.twoWarnings 7).length < 3 ∧
    LeftTo internal.BaseResult.twoWarnings
      (run internal.BaseResult.twoWarnings WarnCaller.fresh [.begin, .incr 0, .incr 0]).its.length
      (step internal.BaseResult.twoWarnings
        (run internal.BaseResult.twoWarnings WarnCaller.fresh [.begin, .incr 0, .incr 0]) .begin)
      [.deref 1, .deref 0, .incr 0, .incr 1, .deref 1] ∧
    (internal.BaseResult.getWarnings internal.BaseResult.twoWarnings 3
        (run internal.BaseResult.twoWarnings WarnCaller.fresh
          [.begin, .incr 0, .incr 0]).res).map Prod.fst =
      some (.ok (internal.BaseResult.twoWarnings 7)) ∧
    yields (run internal.BaseResult.twoWarnings WarnCaller.fresh
        ([.begin, .incr 0, .incr 0] ++ .begin :: [.deref 1, .deref 0, .incr 0, .incr 1, .deref 1]))
        (run internal.BaseResult.twoWarnings WarnCaller.fresh
          [.begin, .incr 0, .incr 0]).its.length =
      yields (run internal.BaseResult.twoWarnings WarnCaller.fresh [.begin, .incr 0, .incr 0])
          (run internal.BaseResult.twoWarnings WarnCaller.fresh
            [.begin, .incr 0, .incr 0]).its.length ++
        alone (internal.BaseResult.twoWarnings 7)
          (run internal.BaseResult.twoWarnings WarnCaller.fresh
            [.begin, .incr 0, .incr 0]).its.length 0
          [.deref 1, .deref 0, .incr 0, .incr 1, .deref 1] :=
  ⟨rfl, by decide, by decide, ⟨rfl, rfl, rfl, rfl, rfl, trivial⟩,
    warnings_pass_after_any_calls internal.BaseResult.twoWarnings WarnCaller.fresh
      [.begin, .incr 0, .incr 0] [.deref 1, .deref 0, .incr 0, .incr 1, .deref 1] 7 3 rfl
      (by decide) (by decide) ⟨rfl, rfl, rfl, rfl, rfl, trivial⟩⟩

/-- C8 fails as stated: the reply carries the two warnings `warning0` and
`warning1`. Alone, an iterator gives `warning0`, is incremented, and gives
`warning1`. When a second iterator is obtained from the handle between that
increment and the second dereference, the first iterator gives `warning0`
twice; and when two iterators are obtained and each is incremented once, a
dereference of the first, which is not at its end, fails with the
out-of-range error. -/
theorem interleaved_warning_iterators_interfere :
    yields (run internal.BaseResult.twoWarnings WarnCaller.fresh
        [.begin, .deref 0, .incr 0, .deref 0]) 0 =
      [.ok internal.BaseResult.warning0, .ok internal.BaseResult.warning1] ∧
    yields (run internal.BaseResult.twoWarnings WarnCaller.fresh
        [.begin, .deref 0, .incr 0, .begin, .deref 0]) 0 =
      [.ok internal.BaseResult.warning0, .ok internal.BaseResult.warning0] ∧
    yields (run internal.BaseResult.twoWarnings WarnCaller.fresh
        [.begin, .deref 0, .incr 0, .begin, .deref 0]) 0 ≠
      yields (run internal.BaseResult.twoWarnings WarnCaller.fresh
        [.begin, .deref 0, .incr 0, .deref 0]) 0 ∧
    yields (run internal.BaseResult.twoWarnings WarnCaller.fresh
        [.begin, .begin, .incr 0, .incr 1, .deref 0]) 0 =
      [.error (.impl .out_of_range)] := by
  have h₁ : yields (run internal.BaseResult.twoWarnings WarnCaller.fresh
        [.begin, .deref 0, .incr 0, .deref 0]) 0 =
      [.ok internal.BaseResult.warning0, .ok internal.BaseResult.warning1] := by rfl
  have h₂ : yields (run internal.BaseResult.twoWarnings WarnCaller.fresh
        [.begin, .deref 0, .incr 0, .begin, .deref 0]) 0 =
      [.ok internal.BaseResult.warning0, .ok internal.BaseResult.warning0] := by rfl
  refine ⟨h₁, h₂, ?_, by rfl⟩
  rw [h₁, h₂]
  simp [internal.BaseResult.warning0, internal.BaseResult.warning1]

/-- C7 fails as stated: the reply carries the two warnings `warning0` and
`warning1`. In two nested passes over the warnings of the handle, the outer
pass gives `warning0`, the inner pass runs from `begin()` to `end()` and gives
both warnings, and the next increment of the outer iterator puts it at its
end: the outer pass is complete and has given one warning of two. In two
passes made in step, the first iterator gives `warning0`, both are
incremented, and the first iterator, which is not at its end, asks for
`getWarning(2)` and fails with the out-of-range error. -/
theorem nested_warning_passes_cut_short :
    yields (run internal.BaseResult.twoWarnings WarnCaller.fresh
        [.begin, .deref 0, .begin, .deref 1, .incr 1, .deref 1, .incr 1, .incr 0]) 0 =
      [.ok internal.BaseResult.warning0] ∧
    yields (run internal.BaseResult.twoWarnings WarnCaller.fresh
        [.begin, .deref 0, .begin, .deref 1, .incr 1, .deref 1, .incr 1, .incr 0]) 1 =
      [.ok internal.BaseResult.warning0, .ok internal.BaseResult.warning1] ∧
    ((run internal.BaseResult.twoWarnings WarnCaller.fresh
        [.begin, .deref 0, .begin, .deref 1, .incr 1, .deref 1, .incr 1, .incr 0]).its.map
          (fun it => internal.iterator.ne it internal.BaseResult.end_)) = [false, false] ∧
    (internal.BaseResult.twoWarnings 7).length = 2 ∧
    yields (run internal.BaseResult.twoWarnings WarnCaller.fresh
        [.begin, .begin, .deref 0, .deref 1, .incr 0, .incr 1, .deref 0]) 0 =
      [.ok internal.BaseResult.warning0, .error (.impl .out_of_range)] ∧
    ((run internal.BaseResult.twoWarnings WarnCaller.fresh
        [.begin, .begin, .deref 0, .deref 1, .incr 0, .incr 1]).its.map
          (fun it => internal.iterator.ne it internal.BaseResult.end_)) = [true, false] ∧
    (run internal.BaseResult.twoWarnings WarnCaller.fresh
        [.begin, .begin, .deref 0, .deref 1, .incr 0, .incr 1]).res.m_wpos = 2 :=
  ⟨rfl, rfl, rfl, rfl, rfl, rfl, rfl⟩

end WarnCaller

/-! ## Rows -/

namespace RowResult

variable {σ : Type}

theorem eq_default_of_isNull (r : Row) (h : r.isNull = true) : r = Row.default_ctor := by
  rcases r with ⟨m⟩
  cases m with
  | none => rfl
  | some v => simp [Row.isNull] at h

theorem after_succ (fetchOne : σ → Row × σ) (n : Nat) (s : σ) :
    after fetchOne (n + 1) s = after fetchOne n (fetchOne s).2 := by
  simp [after, Function.iterate_succ_apply]

theorem range_loop_at_end {ε α : Type} (d : internal.Driver σ ε α) (fuel : Nat)
    (m : Option Unit) (impl : σ) (acc : List α) :
    internal.range_loop d (fuel + 1) { m_impl := m, m_at_end := true }
        internal.iterator.default_ctor impl acc = some (.ok acc, impl) := by
  simp [internal.range_loop, internal.iterator.ne, internal.iterator.default_ctor]

theorem range_loop_live (fetchOne : σ → Row × σ) (fuel : Nat) (s : σ) (cur : Row)
    (acc : List Row) :
    internal.range_loop (driver fetchOne) (fuel + 1) { m_impl := some (), m_at_end := false }
        internal.iterator.default_ctor { stream := s, m_cur_row := cur } acc =
      internal.range_loop (driver fetchOne) fuel
        { m_impl := some (), m_at_end := (fetchOne s).1.isNull }
        internal.iterator.default_ctor
        { stream := (fetchOne s).2, m_cur_row := (fetchOne s).1 } (acc ++ [cur]) := by
  simp [internal.range_loop, internal.iterator.ne, internal.iterator.default_ctor,
    internal.iterator.deref, internal.iterator.incr, driver, iterator_get, iterator_next]

theorem begin_eq (fetchOne : σ → Row × σ) (res : RowResult σ) :
    begin fetchOne res =
      ({ m_impl := some (), m_at_end := (fetchOne res.stream).1.isNull },
       { stream := (fetchOne res.stream).2, m_cur_row := (fetchOne res.stream).1 }) := by
  simp [begin, internal.iterator.ofImpl, driver, iterator_start, iterator_next]

theorem row_loop (fetchOne : σ → Row × σ) :
    ∀ (rows : List Row) (s : σ) (cur : Row) (acc : List Row) (fuel : Nat),
      Yields fetchOne s rows → rows.length + 1 < fuel →
      internal.range_loop (driver fetchOne) fuel { m_impl := some (), m_at_end := false }
          internal.iterator.default_ctor { stream := s, m_cur_row := cur } acc =
        some (.ok (acc ++ cur :: rows),
              { stream := after fetchOne (rows.length + 1) s, m_cur_row := Row.default_ctor }) := by
  intro rows
  induction rows with
  | nil =>
    intro s cur acc fuel hy hf
    obtain ⟨fuel, rfl⟩ : ∃ k, fuel = k + 2 := ⟨fuel - 2, by simp at hf; omega⟩
    have hnull : (fetchOne s).1.isNull = true := hy
    rw [range_loop_live, hnull, range_loop_at_end, eq_default_of_isNull _ hnull]
    rfl
  | cons r rs ih =>
    intro s cur acc fuel hy hf
    obtain ⟨fuel, rfl⟩ : ∃ k, fuel = k + 1 := ⟨fuel - 1, by omega⟩
    obtain ⟨h₁, h₂, h₃⟩ := hy
    rw [range_loop_live, h₁, h₂, after_succ, ih (fetchOne s).2 r (acc ++ [cur]) fuel h₃
      (by simpa using hf)]
    simp

theorem fetchAll_eq (fetchOne : σ → Row × σ) (res : RowResult σ) (rows : List Row) (fuel : Nat)
    (hy : Yields fetchOne res.stream rows) (hf : rows.length < fuel) :
    fetchAll fetchOne fuel res =
      some (.ok rows,
            { stream := after fetchOne (rows.length + 1) res.stream,
              m_cur_row := Row.default_ctor }) := by
  have hb : fetchAll fetchOne fuel res =
      internal.range_loop (driver fetchOne) fuel (begin fetchOne res).1
        internal.iterator.default_ctor (begin fetchOne res).2 [] := rfl
  rw [hb, begin_eq]
  cases rows with
  | nil =>
    obtain ⟨fuel, rfl⟩ : ∃ k, fuel = k + 1 := ⟨fuel - 1, by simp at hf; omega⟩
    have hnull : (fetchOne res.stream).1.isNull = true := hy
    simp only [hnull]
    rw [range_loop_at_end, eq_default_of_isNull _ hnull]
    rfl
  | cons r rs =>
    obtain ⟨h₁, h₂, h₃⟩ := hy
    simp only [h₁, h₂]
    rw [row_loop fetchOne rs (fetchOne res.stream).2 r [] fuel h₃ (by simpa using hf),
      List.length_cons, after_succ fetchOne (rs.length + 1) res.stream]
    simp

theorem yields_append (fetchOne : σ → Row × σ) :
    ∀ (taken rows : List Row) (s : σ), Yields fetchOne s (taken ++ rows) →
      Yields fetchOne (after fetchOne taken.length s) rows ∧
      (List.range taken.length).map (fun i => (fetchOne (after fetchOne i s)).1) = taken := by
  intro taken
  induction taken with
  | nil =>
    intro rows s hy
    exact ⟨hy, rfl⟩
  | cons t ts ih =>
    intro rows s hy
    obtain ⟨h₁, _, h₃⟩ := hy
    obtain ⟨ih₁, ih₂⟩ := ih rows (fetchOne s).2 h₃
    refine ⟨?_, ?_⟩
    · rw [List.length_cons, after_succ]
      exact ih₁
    · rw [List.length_cons, List.range_succ_eq_map, List.map_cons, List.map_map]
      have hfun : ((fun i => (fetchOne (after fetchOne i s)).1) ∘ Nat.succ) =
          (fun i => (fetchOne (after fetchOne i (fetchOne s).2)).1) := by
        funext i
        simp [Function.comp, after_succ]
      rw [hfun, ih₂]
      simp [after, h₁]

theorem incr_n_at_end {ε α : Type} (d : internal.Driver σ ε α) (n : Nat) (m : Option Unit)
    (impl : σ) :
    internal.iterator.incr_n d n ({ m_impl := m, m_at_end := true }, impl) =
      ({ m_impl := m, m_at_end := true }, impl) := by
  induction n with
  | zero => rfl
  | succ n ih =>
    have h : internal.iterator.incr d { m_impl := m, m_at_end := true } impl =
        ({ m_impl := m, m_at_end := true }, impl) := by
      simp [internal.iterator.incr]
    simp only [internal.iterator.incr_n, h, ih]

theorem incr_live (fetchOne : σ → Row × σ) (s : σ) (cur : Row) :
    internal.iterator.incr (driver fetchOne) { m_impl := some (), m_at_end := false }
        { stream := s, m_cur_row := cur } =
      ({ m_impl := some (), m_at_end := (fetchOne s).1.isNull },
       { stream := (fetchOne s).2, m_cur_row := (fetchOne s).1 }) := by
  simp [internal.iterator.incr, driver, iterator_next]

theorem positions_live (fetchOne : σ → Row × σ) :
    ∀ (i : Nat) (rows : List Row) (s : σ) (cur : Row), Yields fetchOne s rows →
      (internal.iterator.deref (driver fetchOne)
          (internal.iterator.incr_n (driver fetchOne) i
            ({ m_impl := some (), m_at_end := false }, { stream := s, m_cur_row := cur })).1
          (internal.iterator.incr_n (driver fetchOne) i
            ({ m_impl := some (), m_at_end := false }, { stream := s, m_cur_row := cur })).2).1 =
        (match (cur :: rows)[i]? with
         | some r => .ok r
         | none => .error .null_iterator) ∧
      internal.iterator.ne
          (internal.iterator.incr_n (driver fetchOne) i
            ({ m_impl := some (), m_at_end := false }, { stream := s, m_cur_row := cur })).1
          internal.iterator.default_ctor = ((cur :: rows)[i]?).isSome := by
  intro i
  induction i with
  | zero =>
    intro rows s cur _
    simp [internal.iterator.incr_n, internal.iterator.deref, internal.iterator.ne,
      internal.iterator.default_ctor, driver, iterator_get]
  | succ i ih =>
    intro rows s cur hy
    simp only [internal.iterator.incr_n, incr_live]
    cases rows with
    | nil =>
      have hnull : (fetchOne s).1.isNull = true := hy
      rw [hnull, incr_n_at_end]
      simp [internal.iterator.deref, internal.iterator.ne, internal.iterator.default_ctor]
    | cons r rs =>
      obtain ⟨h₁, h₂, h₃⟩ := hy
      rw [h₁, h₂]
      simpa using ih rs (fetchOne s).2 r h₃

theorem positions_begin (fetchOne : σ → Row × σ) (res : RowResult σ) (rows : List Row)
    (hy : Yields fetchOne res.stream rows) (i : Nat) :
    (internal.iterator.deref (driver fetchOne)
        (internal.iterator.incr_n (driver fetchOne) i (begin fetchOne res)).1
        (internal.iterator.incr_n (driver fetchOne) i (begin fetchOne res)).2).1 =
      (match rows[i]? with
       | some r => .ok r
       | none => .error .null_iterator) ∧
    internal.iterator.ne (internal.iterator.incr_n (driver fetchOne) i (begin fetchOne res)).1
        end_ = (rows[i]?).isSome := by
  rw [begin_eq]
  cases rows with
  | nil =>
    have hnull : (fetchOne res.stream).1.isNull = true := hy
    rw [hnull, incr_n_at_end]
    simp [internal.iterator.deref, internal.iterator.ne, internal.iterator.default_ctor, end_]
  | cons r rs =>
    obtain ⟨h₁, h₂, h₃⟩ := hy
    rw [h₁, h₂]
    exact positions_live fetchOne i rs (fetchOne res.stream).2 r h₃

/-- C1: when the next calls of `fetchOne()` on a row result would return the
rows `taken` and then the rows `rows`, none of them null, and then a null
`Row`, then after the calls that return `taken` a `fetchAll()` stored in a
container ends (given a loop bound above the number of rows) and holds
exactly `rows`, in order; and the iterator `begin()` returns, incremented
`i` times, dereferences to the row with index `i` of `rows` and differs from
`end()` while there is such a row, and fails to dereference and equals
`end()` once there is none. -/
theorem fetchAll_yields_remaining_rows (fetchOne : σ → Row × σ) (res : RowResult σ)
    (taken rows : List Row) (fuel : Nat)
    (hy : Yields fetchOne res.stream (taken ++ rows)) (hf : rows.length < fuel) :
    (List.range taken.length).map (fun i => (fetchOne (after fetchOne i res.stream)).1) = taken ∧
    (fetchAll fetchOne fuel
        { res with stream := after fetchOne taken.length res.stream }).map Prod.fst =
      some (.ok rows) ∧
    ∀ i : Nat,
      (internal.iterator.deref (driver fetchOne)
          (internal.iterator.incr_n (driver fetchOne) i
            (begin fetchOne { res with stream := after fetchOne taken.length res.stream })).1
          (internal.iterator.incr_n (driver fetchOne) i
            (begin fetchOne { res with stream := after fetchOne taken.length res.stream })).2).1 =
        (match rows[i]? with
         | some r => .ok r
         | none => .error .null_iterator) ∧
      internal.iterator.ne
          (internal.iterator.incr_n (driver fetchOne) i
            (begin fetchOne { res with stream := after fetchOne taken.length res.stream })).1
          end_ = (rows[i]?).isSome := by
  obtain ⟨hy', htaken⟩ := yields_append fetchOne taken rows res.stream hy
  refine ⟨htaken, ?_, ?_⟩
  · rw [fetchAll_eq fetchOne _ rows fuel hy' hf]
    rfl
  · intro i
    exact positions_begin fetchOne _ rows hy' i

/-- An instance of C1: a stream with the two rows `row0` and `row1`. -/
theorem fetchAll_yields_remaining_rows_witness :
    Yields RowStream.fetchOne twoRows.stream ([] ++ [row0, row1]) ∧
    [row0, row1].length < 3 ∧
    (fetchAll RowStream.fetchOne 3 twoRows).map Prod.fst = some (.ok [row0, row1]) ∧
    (internal.iterator.deref (driver RowStream.fetchOne)
        (begin RowStream.fetchOne twoRows).1 (begin RowStream.fetchOne twoRows).2).1 =
      .ok row0 :=
  ⟨⟨rfl, rfl, rfl, rfl, rfl⟩, by decide,
    (fetchAll_yields_remaining_rows RowStream.fetchOne twoRows [] [row0, row1] 3
      ⟨rfl, rfl, rfl, rfl, rfl⟩ (by decide)).2.1,
    ((fetchAll_yields_remaining_rows RowStream.fetchOne twoRows [] [row0, row1] 3
      ⟨rfl, rfl, rfl, rfl, rfl⟩ (by decide)).2.2 0).1⟩

theorem after_succ_outer (fetchOne : σ → Row × σ) (n : Nat) (s : σ) :
    after fetchOne (n + 1) s = (fetchOne (after fetchOne n s)).2 := by
  simp [after, Function.iterate_succ_apply']

theorem drained_null (fetchOne : σ → Row × σ) (s : σ) (h : Drained fetchOne s) :
    (fetchOne s).1.isNull = true :=
  h 0

theorem drained_next (fetchOne : σ → Row × σ) (s : σ) (h : Drained fetchOne s) :
    Drained fetchOne (fetchOne s).2 := by
  intro k
  have := h (k + 1)
  rwa [after_succ] at this

theorem yields_of_drained (fetchOne : σ → Row × σ) :
    ∀ (rows : List Row) (s : σ), YieldsThenDrained fetchOne s rows → Yields fetchOne s rows := by
  intro rows
  induction rows with
  | nil => intro s h; exact drained_null fetchOne s h
  | cons r rs ih => intro s h; exact ⟨h.1, h.2.1, ih _ h.2.2⟩

theorem drained_after (fetchOne : σ → Row × σ) :
    ∀ (rows : List Row) (s : σ), YieldsThenDrained fetchOne s rows →
      Drained fetchOne (after fetchOne (rows.length + 1) s) := by
  intro rows
  induction rows with
  | nil => intro s h; exact drained_next fetchOne s h
  | cons r rs ih =>
    intro s h
    rw [List.length_cons, after_succ]
    exact ih _ h.2.2

theorem pull_cases (fetchOne : σ → Row × σ) (s : σ) (rest : List Row)
    (h : YieldsThenDrained fetchOne s rest) :
    ((fetchOne s).1.isNull = true ∧ rest = [] ∧ YieldsThenDrained fetchOne (fetchOne s).2 []) ∨
    ((fetchOne s).1.isNull = false ∧
      ∃ rs, rest = (fetchOne s).1 :: rs ∧ YieldsThenDrained fetchOne (fetchOne s).2 rs) := by
  cases rest with
  | nil => exact Or.inl ⟨drained_null fetchOne s h, rfl, drained_next fetchOne s h⟩
  | cons r rs =>
    obtain ⟨h₁, h₂, h₃⟩ := h
    refine Or.inr ⟨by rw [h₁]; exact h₂, rs, by rw [h₁], h₃⟩

end RowResult

namespace RowCaller

variable {σ : Type}

theorem accounted_pull (fetchOne : σ → Row × σ) (rows : List Row) (c : RowCaller σ)
    (rest : List Row) (h : Accounted fetchOne rows c rest) (hfresh : c.fresh = false)
    (its : List internal.iterator) :
    ∃ rest₁, Accounted fetchOne rows
      { res := { stream := (fetchOne c.res.stream).2, m_cur_row := (fetchOne c.res.stream).1 },
        its := its, out := c.out, fresh := !(fetchOne c.res.stream).1.isNull } rest₁ := by
  obtain ⟨hy, hsum, _⟩ := h
  have hp : pending c = [] := by simp [pending, hfresh]
  rw [hp, List.append_nil] at hsum
  rcases RowResult.pull_cases fetchOne c.res.stream rest hy with ⟨hn, hr, hy'⟩ | ⟨hn, rs, hr, hy'⟩
  · refine ⟨[], hy', ?_, ?_⟩
    · simp [pending, hn, ← hsum, hr]
    · simp [hn]
  · refine ⟨rs, hy', ?_, ?_⟩
    · simp [pending, hn, ← hsum, hr]
    · simp [hn]

theorem accounted_its (fetchOne : σ → Row × σ) (rows : List Row) (c : RowCaller σ)
    (rest : List Row) (h : Accounted fetchOne rows c rest) (its : List internal.iterator) :
    Accounted fetchOne rows { c with its := its } rest :=
  h

theorem step_accounted (fetchOne : σ → Row × σ) (rows : List Row) (fuel : Nat)
    (hf : rows.length < fuel) (c : RowCaller σ) (rest : List Row) (op : RowOp)
    (h : Accounted fetchOne rows c rest) (ha : allowed c op = true) :
    ∃ c₁ rest₁, step fetchOne fuel c op = some c₁ ∧ Accounted fetchOne rows c₁ rest₁ := by
  cases op with
  | fetchOne =>
    have hfresh : c.fresh = false := by simpa [allowed] using ha
    obtain ⟨hy, hsum, hcur⟩ := h
    have hp : pending c = [] := by simp [pending, hfresh]
    rw [hp, List.append_nil] at hsum
    rcases RowResult.pull_cases fetchOne c.res.stream rest hy with
      ⟨hn, hr, hy'⟩ | ⟨hn, rs, hr, hy'⟩
    · refine ⟨_, [], rfl, hy', ?_, ?_⟩
      · simp [pending, hfresh, receive, hn, ← hsum, hr]
      · intro hc
        rw [hfresh] at hc
        exact absurd hc (by decide)
    · refine ⟨_, rs, rfl, hy', ?_, ?_⟩
      · simp [pending, hfresh, receive, hn, ← hsum, hr]
      · intro hc
        rw [hfresh] at hc
        exact absurd hc (by decide)
  | begin =>
    have hfresh : c.fresh = false := by simpa [allowed] using ha
    obtain ⟨rest₁, h₁⟩ := accounted_pull fetchOne rows c rest h hfresh
      (c.its ++ [{ m_impl := some (), m_at_end := (fetchOne c.res.stream).1.isNull }])
    refine ⟨_, rest₁, ?_, h₁⟩
    simp [step, RowResult.begin_eq]
  | incr i =>
    cases hi : c.its[i]? with
    | none => exact ⟨c, rest, by simp [step, hi], h⟩
    | some it =>
      cases hl : (it.m_impl.isSome && !it.m_at_end) with
      | true =>
        have hfresh : c.fresh = false := by simpa [allowed, hi, hl] using ha
        obtain ⟨rest₁, h₁⟩ := accounted_pull fetchOne rows c rest h hfresh
          (c.its.set i { m_impl := it.m_impl, m_at_end := (fetchOne c.res.stream).1.isNull })
        refine ⟨_, rest₁, ?_, h₁⟩
        simp [step, hi, hl, internal.iterator.incr, RowResult.driver, RowResult.iterator_next]
      | false =>
        refine ⟨{ c with its := c.its.set i it }, rest, ?_, accounted_its fetchOne rows c rest h _⟩
        simp [step, hi, hl, internal.iterator.incr]
  | deref i =>
    cases hi : c.its[i]? with
    | none => exact ⟨c, rest, by simp [step, hi], h⟩
    | some it =>
      have hall : (it.m_impl.isSome && !it.m_at_end && c.fresh) = true := by
        simpa [allowed, hi] using ha
      have hfresh : c.fresh = true := by
        cases hc : c.fresh
        · simp [hc] at hall
        · rfl
      have hlive : internal.iterator.deref (RowResult.driver fetchOne) it c.res =
          (.ok c.res.m_cur_row, c.res) := by
        cases h₁ : it.m_impl.isSome <;> cases h₂ : it.m_at_end <;> simp [h₁, h₂] at hall
        simp [internal.iterator.deref, h₁, h₂, RowResult.driver, RowResult.iterator_get]
      obtain ⟨hy, hsum, hcur⟩ := h
      have hnn := hcur hfresh
      refine ⟨{ c with out := c.out ++ [c.res.m_cur_row], fresh := false }, rest, ?_, hy, ?_, ?_⟩
      · simp [step, hi, hlive, receive, hnn]
      · simpa [pending, hfresh] using hsum
      · intro hc
        cases hc
  | fetchAll =>
    have hfresh : c.fresh = false := by simpa [allowed] using ha
    obtain ⟨hy, hsum, hcur⟩ := h
    have hp : pending c = [] := by simp [pending, hfresh]
    rw [hp, List.append_nil] at hsum
    have hlen : rest.length < fuel := by
      have : rows.length = c.out.length + rest.length := by rw [← hsum, List.length_append]
      omega
    have hall := RowResult.fetchAll_eq fetchOne c.res rest fuel
      (RowResult.yields_of_drained fetchOne rest _ hy) hlen
    refine ⟨{ c with res := { stream := RowResult.after fetchOne (rest.length + 1) c.res.stream,
                              m_cur_row := Row.default_ctor },
                     out := c.out ++ rest, fresh := false }, [], ?_, ?_, ?_, ?_⟩
    · simp [step, hall]
    · exact RowResult.drained_after fetchOne rest _ hy
    · simpa [pending] using hsum
    · intro hc
      cases hc

theorem run_accounted (fetchOne : σ → Row × σ) (rows : List Row) (fuel : Nat)
    (hf : rows.length < fuel) :
    ∀ (ops : List RowOp) (c : RowCaller σ) (rest : List Row),
      Accounted fetchOne rows c rest → Disciplined fetchOne fuel c ops →
      ∃ c₁ rest₁, run fetchOne fuel c ops = some c₁ ∧ Accounted fetchOne rows c₁ rest₁ := by
  intro ops
  induction ops with
  | nil =>
    intro c rest h _
    exact ⟨c, rest, rfl, h⟩
  | cons op ops ih =>
    intro c rest h hd
    obtain ⟨ha, hd'⟩ := hd
    obtain ⟨c₁, rest₁, hs, h₁⟩ := step_accounted fetchOne rows fuel hf c rest op h ha
    rw [hs] at hd'
    obtain ⟨c₂, rest₂, hr, h₂⟩ := ih c₁ rest₁ h₁ hd'
    refine ⟨c₂, rest₂, ?_, h₂⟩
    simp [run, hs, hr]

/-- C2, as amended: on a stream that has the rows `rows` to give, a sequence
of calls of `fetchOne()`, `begin()`, `++it`, `*it` and `fetchAll()` in which
every row an iterator pulls is returned by one `*it` before the next call
that pulls from the stream runs to its end (given a loop bound above the
number of rows), and after it every row is accounted for once and in order:
the rows handed to the caller, then the row that waits in `m_cur_row`, if
any, then the rows still in the stream, make up `rows`. When the calls have
run the stream to its end and no row waits, the rows handed to the caller
are exactly `rows`. -/
theorem disciplined_calls_hand_over_each_row_once (fetchOne : σ → Row × σ) (s : σ)
    (rows : List Row) (ops : List RowOp) (fuel : Nat)
    (hy : RowResult.YieldsThenDrained fetchOne s rows) (hf : rows.length < fuel)
    (hd : Disciplined fetchOne fuel (start s) ops) :
    ∃ c rest, run fetchOne fuel (start s) ops = some c ∧
      RowResult.YieldsThenDrained fetchOne c.res.stream rest ∧
      c.out ++ pending c ++ rest = rows ∧
      (c.fresh = false → (fetchOne c.res.stream).1.isNull = true → c.out = rows) := by
  have h₀ : Accounted fetchOne rows (start s) rows := by
    refine ⟨hy, ?_, ?_⟩
    · simp [start, pending]
    · intro hc
      cases hc
  obtain ⟨c, rest, hr, hy', hsum, _⟩ := run_accounted fetchOne rows fuel hf ops _ _ h₀ hd
  refine ⟨c, rest, hr, hy', hsum, ?_⟩
  intro hfresh hnull
  cases rest with
  | nil => simpa [pending, hfresh] using hsum
  | cons r rs =>
    obtain ⟨h₁, h₂, _⟩ := hy'
    rw [h₁, h₂] at hnull
    exact absurd hnull (by decide)

theorem empty_stream_drained :
    RowResult.Drained RowStream.fetchOne { m_row_cache := [], reply := [] } := by
  have hafter : ∀ k : Nat, RowResult.after RowStream.fetchOne k
      { m_row_cache := [], reply := [] } = { m_row_cache := [], reply := [] } := by
    intro k
    induction k with
    | zero => rfl
    | succ k ih => rw [RowResult.after_succ_outer, ih]; rfl
  intro k
  rw [hafter k]
  rfl

/-- An instance of the amended C2: on a stream with three rows, `fetchOne()`,
then `begin()` and one `*it`, then `fetchAll()`. -/
theorem disciplined_calls_hand_over_each_row_once_witness :
    RowResult.YieldsThenDrained RowStream.fetchOne threeRows [row0, row1, row2] ∧
    [row0, row1, row2].length < 4 ∧
    Disciplined RowStream.fetchOne 4 (start threeRows) [.fetchOne, .begin, .deref 0, .fetchAll] ∧
    ∃ c rest, run RowStream.fetchOne 4 (start threeRows)
        [.fetchOne, .begin, .deref 0, .fetchAll] = some c ∧
      RowResult.YieldsThenDrained RowStream.fetchOne c.res.stream rest ∧
      c.out ++ pending c ++ rest = [row0, row1, row2] ∧
      (c.fresh = false → (RowStream.fetchOne c.res.stream).1.isNull = true →
        c.out = [row0, row1, row2]) :=
  ⟨⟨rfl, rfl, rfl, rfl, rfl, rfl, empty_stream_drained⟩, by decide,
    ⟨rfl, rfl, rfl, rfl, trivial⟩,
    disciplined_calls_hand_over_each_row_once RowStream.fetchOne threeRows [row0, row1, row2]
      [.fetchOne, .begin, .deref 0, .fetchAll] 4
      ⟨rfl, rfl, rfl, rfl, rfl, rfl, empty_stream_drained⟩ (by decide)
      ⟨rfl, rfl, rfl, rfl, trivial⟩⟩

/-- C2 fails as stated: the stream has `row0`, `row1` and `row2` to give. The
calls `begin()`, `begin()`, `*it` on the first iterator, `*it` on the second,
`fetchAll()` run the stream to its end and hand the caller `row1`, `row1`,
`row2`: `row0` was pulled and is lost, `row1` is handed over twice. The calls
`begin()`, `fetchAll()` run the stream to its end and hand the caller `row1`
and `row2` only. -/
theorem undisciplined_calls_lose_and_repeat_rows :
    RowResult.YieldsThenDrained RowStream.fetchOne threeRows [row0, row1, row2] ∧
    (run RowStream.fetchOne 4 (start threeRows)
        [.begin, .begin, .deref 0, .deref 1, .fetchAll]).map (fun c => c.out) =
      some [row1, row1, row2] ∧
    (run RowStream.fetchOne 4 (start threeRows)
        [.begin, .begin, .deref 0, .deref 1, .fetchAll]).map
          (fun c => (RowStream.fetchOne c.res.stream).1.isNull) = some true ∧
    (run RowStream.fetchOne 4 (start threeRows) [.begin, .fetchAll]).map (fun c => c.out) =
      some [row1, row2] ∧
    (run RowStream.fetchOne 4 (start threeRows) [.begin, .fetchAll]).map
          (fun c => (RowStream.fetchOne c.res.stream).1.isNull) = some true ∧
    [row1, row1, row2] ≠ [row0, row1, row2] ∧ [row1, row2] ≠ [row0, row1, row2] :=
  ⟨⟨rfl, rfl, rfl, rfl, rfl, rfl, empty_stream_drained⟩, rfl, rfl, rfl, rfl,
    by decide, by decide⟩

end RowCaller

/-! ## Moves of row results -/

/-- C11 fails on the code: a move of a row result passes only the `BaseResult`
subobject on. A move assignment leaves the row cache, its size and the
caching flag of the destination as they were, and a move construction
leaves them empty, zero and false, whatever the source holds. In the memory
`twoBuffered` the source at address 1 has buffered `row0` and `row1` and
would return `row0` from `fetchOne()`. After a move assignment into the row
result at address 0, that one refers to the reply of the source but still
holds `row2` of its earlier result, and `fetchOne()` returns `row2`; after a
move construction at address 0 its cache is empty and `fetchOne()` returns
a null `Row`. -/
theorem move_does_not_carry_row_cache :
    (∀ (mem : Nat → RowResult.Members) (self other : Nat),
      (RowResult.move_assign mem self other self).m_row_cache = (mem self).m_row_cache ∧
      (RowResult.move_assign mem self other self).m_row_cache_size =
        (mem self).m_row_cache_size ∧
      (RowResult.move_assign mem self other self).m_cache = (mem self).m_cache) ∧
    (∀ (mem : Nat → RowResult.Members) (self other : Nat),
      (RowResult.move_ctor mem self other self).m_row_cache = [] ∧
      (RowResult.move_ctor mem self other self).m_row_cache_size = 0 ∧
      (RowResult.move_ctor mem self other self).m_cache = false) ∧
    ((twoBuffered 1).m_row_cache = [row0, row1] ∧ (twoBuffered 1).m_row_cache_size = 2 ∧
      (twoBuffered 1).m_cache = true ∧
      (RowStream.fetchOne (RowResult.Members.stream noRowsLeft (twoBuffered 1))).1 = row0) ∧
    ((RowResult.move_assign twoBuffered 0 1 0).base.m_impl = some 7 ∧
      (RowResult.move_assign twoBuffered 0 1 0).base.m_owns_impl = true ∧
      (RowResult.move_assign twoBuffered 0 1 0).m_row_cache = [row2] ∧
      (RowResult.move_assign twoBuffered 0 1 0).m_row_cache_size = 1 ∧
      (RowStream.fetchOne
        (RowResult.Members.stream noRowsLeft (RowResult.move_assign twoBuffered 0 1 0))).1 =
        row2) ∧
    ((RowResult.move_ctor twoBuffered 0 1 0).base.m_impl = some 7 ∧
      (RowResult.move_ctor twoBuffered 0 1 0).base.m_owns_impl = true ∧
      (RowResult.move_ctor twoBuffered 0 1 0).m_row_cache = [] ∧
      (RowResult.move_ctor twoBuffered 0 1 0).m_row_cache_size = 0 ∧
      (RowResult.move_ctor twoBuffered 0 1 0).m_cache = false ∧
      (RowStream.fetchOne
        (RowResult.Members.stream noRowsLeft (RowResult.move_ctor twoBuffered 0 1 0))).1 =
        Row.default_ctor) := by
  refine ⟨?_, ?_, ?_, ?_, ?_⟩
  · intro mem self other
    exact ⟨rfl, rfl, rfl⟩
  · intro mem self other
    simp [RowResult.move_ctor]
  · decide
  · decide
  · decide

end mysqlx
